import Mathlib
set_option maxRecDepth 8192

/-!
Verification of the unllm text-cleaning engine.

The repository contains two generations of the engine:

* namespace Unllm   — the model of src/index.ts (presets, quote/dash/space/
  ellipsis normalization, a keyboard-character filter, inspection report);
* namespace UnllmV0 — the model of src/unnamed/part_000 (options
  invisible/spaces/dashes/ellipsis, inspection returning a list of issues).

Strings are modelled as lists of Unicode scalar values (List Nat), i.e. the
sequence produced by JavaScript Array.from(text), which iterates code points
with surrogate pairs combined.  String.replaceAll with a single-code-point
pattern is modelled by replaceAllChar below.  Where the source reads a UTF-16
code unit (charCodeAt(0)) the model uses charCodeAt0, which returns the code
point itself for BMP characters and the leading (high) surrogate value for
characters at or above U+10000, exactly as JavaScript does on the one-character
string produced by Array.from.
-/

/-- JavaScript s.replaceAll(pat, rep) where pat is a single code point:
every occurrence of the code point pat is replaced by the sequence rep. -/
def replaceAllChar (l : List Nat) (pat : Nat) (rep : List Nat) : List Nat :=
  l.flatMap (fun c => if c = pat then rep else [c])

/-- JavaScript charCodeAt(0) on the one-character string holding scalar value
c: the value itself below U+10000, otherwise the high surrogate of its
UTF-16 encoding. -/
def charCodeAt0 (c : Nat) : Nat :=
  if c < 0x10000 then c else 0xD800 + (c - 0x10000) / 0x400

/-- The set of characters matched by the JavaScript regular-expression class
backslash-s and stripped by String.prototype.trim (ECMAScript WhiteSpace
plus LineTerminator). -/
def isJsWhitespace (c : Nat) : Bool :=
  c = 0x9 || c = 0xA || c = 0xB || c = 0xC || c = 0xD || c = 0x20 ||
  c = 0xA0 || c = 0x1680 || (0x2000 ≤ c && c ≤ 0x200A) ||
  c = 0x2028 || c = 0x2029 || c = 0x202F || c = 0x205F || c = 0x3000 ||
  c = 0xFEFF

/-- Replace every maximal run of characters satisfying p by a single ASCII
space, the semantics of s.replace(run-regex, single space) with the global
flag; the Boolean argument records whether the previous character was part
of a run still being replaced. -/
def collapseAux (p : Nat → Bool) : Bool → List Nat → List Nat
  | _, [] => []
  | inRun, c :: cs =>
      if p c then
        if inRun then collapseAux p true cs
        else 32 :: collapseAux p true cs
      else c :: collapseAux p false cs

/-- Global run replacement, starting outside any run. -/
def collapseRuns (p : Nat → Bool) (l : List Nat) : List Nat :=
  collapseAux p false l

/-- JavaScript String.prototype.trim: strip leading and trailing whitespace. -/
def trimJs (l : List Nat) : List Nat :=
  (((l.dropWhile isJsWhitespace).reverse.dropWhile isJsWhitespace)).reverse

/-- Hexadecimal digits (uppercase, as produced by toString(16).toUpperCase()).
The first argument is fuel; fuel n is always sufficient for the number n. -/
def toHexAux : Nat → Nat → List Char
  | 0, _ => []
  | fuel + 1, n =>
      if n = 0 then []
      else toHexAux fuel (n / 16) ++
        [if n % 16 < 10 then Char.ofNat (48 + n % 16) else Char.ofNat (55 + n % 16)]

/-- The digit list of n.toString(16).toUpperCase(). -/
def toHexChars (n : Nat) : List Char :=
  if n = 0 then ['0'] else toHexAux n n

/-- n.toString(16).toUpperCase() for a natural number n. -/
def toHexUpper (n : Nat) : String :=
  String.mk (toHexChars n)

/-- n.toString(16).toUpperCase().padStart(4, zero-digit): the hexadecimal
digits left-padded with zero digits to at least four characters. -/
def hexPadStart4 (n : Nat) : String :=
  String.mk (List.replicate (4 - (toHexChars n).length) '0' ++ toHexChars n)

namespace Unllm

/-- CleanOptions of src/index.ts: all fields optional. -/
structure CleanOptions where
  preserveLineBreaks : Option Bool := none
  preserveTabs : Option Bool := none
  normalizeSpaces : Option Bool := none
  normalizeQuotes : Option Bool := none
  normalizeDashes : Option Bool := none
  normalizeEllipsis : Option Bool := none
  collapseWhitespace : Option Bool := none
  trim : Option Bool := none
deriving DecidableEq

/-- Required CleanOptions: every field resolved to a Boolean. -/
structure RequiredCleanOptions where
  preserveLineBreaks : Bool
  preserveTabs : Bool
  normalizeSpaces : Bool
  normalizeQuotes : Bool
  normalizeDashes : Bool
  normalizeEllipsis : Bool
  collapseWhitespace : Bool
  trim : Bool
deriving DecidableEq

/-- defaultOptions of src/index.ts. -/
def defaultOptions : RequiredCleanOptions :=
  ⟨true, false, true, true, true, true, false, true⟩

/-- The strict preset. -/
def presetStrict : CleanOptions :=
  ⟨some false, some false, some true, some true, some true, some true,
   some true, some true⟩

/-- The standard preset. -/
def presetStandard : CleanOptions :=
  ⟨some true, some false, some true, some true, some true, some true,
   some false, some true⟩

/-- The lenient preset. -/
def presetLenient : CleanOptions :=
  ⟨some true, some true, some true, some false, some false, some false,
   some false, some false⟩

/-- The llm preset. -/
def presetLlm : CleanOptions :=
  ⟨some true, some false, some true, some true, some true, some true,
   some true, some true⟩

/-- The own entries of the preset registry object: its four own enumerable
properties, the ones Object.keys enumerates. -/
def presets : String → Option CleanOptions
  | "strict" => some presetStrict
  | "standard" => some presetStandard
  | "lenient" => some presetLenient
  | "llm" => some presetLlm
  | _ => none

/-- The property names every plain object literal inherits from
Object.prototype; accessing any of them on the preset registry yields a
truthy value (a built-in function, or, for the last entry, the prototype
object itself). -/
def objectPrototypeKeys : List String :=
  ["constructor", "hasOwnProperty", "isPrototypeOf", "propertyIsEnumerable",
   "toLocaleString", "toString", "valueOf", "__defineGetter__",
   "__defineSetter__", "__lookupGetter__", "__lookupSetter__", "__proto__"]

/-- The empty options record.  Spreading a value with no own enumerable
properties (such as an inherited Object.prototype function) into an object
literal contributes no fields, so sanitize treats an inherited registry
member exactly like this record. -/
def emptyOptions : CleanOptions :=
  ⟨none, none, none, none, none, none, none, none⟩

/-- JavaScript property access presets[preset], which consults the
prototype chain: an own key yields its preset record; a name inherited
from Object.prototype yields a truthy value whose spread inside sanitize
contributes no fields, modelled by the empty record; any other name
yields undefined. -/
def presetsGet (preset : String) : Option CleanOptions :=
  match presets preset with
  | some o => some o
  | none =>
      if objectPrototypeKeys.contains preset then some emptyOptions
      else none

/-- Field-wise resolution of an option against a default value. -/
def resolveField (o : Option Bool) (d : Bool) : Bool := o.getD d

/-- The object spread of defaultOptions under options, as in sanitize. -/
def resolveOptions (o : CleanOptions) : RequiredCleanOptions :=
  ⟨resolveField o.preserveLineBreaks defaultOptions.preserveLineBreaks,
   resolveField o.preserveTabs defaultOptions.preserveTabs,
   resolveField o.normalizeSpaces defaultOptions.normalizeSpaces,
   resolveField o.normalizeQuotes defaultOptions.normalizeQuotes,
   resolveField o.normalizeDashes defaultOptions.normalizeDashes,
   resolveField o.normalizeEllipsis defaultOptions.normalizeEllipsis,
   resolveField o.collapseWhitespace defaultOptions.collapseWhitespace,
   resolveField o.trim defaultOptions.trim⟩

/-- Field-wise spread of one partial options record over another. -/
def orField (o b : Option Bool) : Option Bool :=
  match o with
  | some x => some x
  | none => b

/-- The object spread of a base options record under an override record,
as in clean (spread of presets.standard under the caller options). -/
def mergeCleanOptions (base o : CleanOptions) : CleanOptions :=
  ⟨orField o.preserveLineBreaks base.preserveLineBreaks,
   orField o.preserveTabs base.preserveTabs,
   orField o.normalizeSpaces base.normalizeSpaces,
   orField o.normalizeQuotes base.normalizeQuotes,
   orField o.normalizeDashes base.normalizeDashes,
   orField o.normalizeEllipsis base.normalizeEllipsis,
   orField o.collapseWhitespace base.collapseWhitespace,
   orField o.trim base.trim⟩

/-- UNICODE_SPACES of src/index.ts. -/
def UNICODE_SPACES : List Nat :=
  [0xA0, 0x1680, 0x2000, 0x2001, 0x2002, 0x2003, 0x2004, 0x2005, 0x2006,
   0x2007, 0x2008, 0x2009, 0x200A, 0x202F, 0x205F, 0x3000]

/-- SINGLE_QUOTE_MAP of src/index.ts (each maps to ASCII apostrophe 0x27). -/
def SINGLE_QUOTE_MAP : List (Nat × Nat) :=
  [(0x2018, 0x27), (0x2019, 0x27), (0x201A, 0x27), (0x201B, 0x27),
   (0x2039, 0x27), (0x203A, 0x27)]

/-- DOUBLE_QUOTE_MAP of src/index.ts (each maps to ASCII quote 0x22). -/
def DOUBLE_QUOTE_MAP : List (Nat × Nat) :=
  [(0x201C, 0x22), (0x201D, 0x22), (0x201E, 0x22), (0x201F, 0x22),
   (0xAB, 0x22), (0xBB, 0x22)]

/-- DASH_MAP of src/index.ts (each maps to ASCII hyphen 0x2D). -/
def DASH_MAP : List (Nat × Nat) :=
  [(0x2013, 0x2D), (0x2014, 0x2D), (0x2015, 0x2D), (0x2212, 0x2D),
   (0xFE58, 0x2D), (0xFE63, 0x2D)]

/-- INVISIBLE_CHARS of src/index.ts. -/
def INVISIBLE_CHARS : List Nat :=
  [0x0000, 0x00AD, 0x200B, 0x200C, 0x200D, 0x200E, 0x200F, 0x202A, 0x202B,
   0x202C, 0x202D, 0x202E, 0x2060, 0x2061, 0x2062, 0x2063, 0x2064, 0x2066,
   0x2067, 0x2068, 0x2069, 0xFEFF, 0xFFFC, 0xFFFD]

/-- EMOJI_INVISIBLE_CHARS of src/index.ts. -/
def EMOJI_INVISIBLE_CHARS : List Nat := [0x200D]

/-- Membership in the character class of VARIATION_SELECTORS_REGEX. -/
def isVariationSelector (c : Nat) : Bool := 0xFE00 ≤ c && c ≤ 0xFE0F

/-- CHAR_NAMES of src/index.ts. -/
def CHAR_NAMES : List (Nat × String) :=
  [(0x0000, "NUL"), (0x0009, "TAB"), (0x000A, "LF"), (0x000D, "CR"),
   (0x00A0, "NBSP"), (0x1680, "OGHAM_SPACE_MARK"), (0x2000, "EN_QUAD"),
   (0x2001, "EM_QUAD"), (0x2002, "EN_SPACE"), (0x2003, "EM_SPACE"),
   (0x2004, "THREE_PER_EM_SPACE"), (0x2005, "FOUR_PER_EM_SPACE"),
   (0x2006, "SIX_PER_EM_SPACE"), (0x2007, "FIGURE_SPACE"),
   (0x2008, "PUNCTUATION_SPACE"), (0x2009, "THIN_SPACE"),
   (0x200A, "HAIR_SPACE"), (0x200B, "ZERO_WIDTH_SPACE"),
   (0x200C, "ZERO_WIDTH_NON_JOINER"), (0x200D, "ZERO_WIDTH_JOINER"),
   (0x202F, "NARROW_NO_BREAK_SPACE"), (0x205F, "MEDIUM_MATHEMATICAL_SPACE"),
   (0x2060, "WORD_JOINER"), (0x3000, "IDEOGRAPHIC_SPACE"),
   (0xFEFF, "ZERO_WIDTH_NO_BREAK_SPACE"), (0x2018, "LEFT_SINGLE_QUOTATION_MARK"),
   (0x2019, "RIGHT_SINGLE_QUOTATION_MARK"), (0x201A, "SINGLE_LOW_9_QUOTATION_MARK"),
   (0x201B, "SINGLE_HIGH_REVERSED_9_QUOTATION_MARK"),
   (0x201C, "LEFT_DOUBLE_QUOTATION_MARK"), (0x201D, "RIGHT_DOUBLE_QUOTATION_MARK"),
   (0x201E, "DOUBLE_LOW_9_QUOTATION_MARK"),
   (0x201F, "DOUBLE_HIGH_REVERSED_9_QUOTATION_MARK"),
   (0x2039, "SINGLE_LEFT_POINTING_ANGLE_QUOTATION_MARK"),
   (0x203A, "SINGLE_RIGHT_POINTING_ANGLE_QUOTATION_MARK"),
   (0x00AB, "LEFT_POINTING_DOUBLE_ANGLE_QUOTATION_MARK"),
   (0x00BB, "RIGHT_POINTING_DOUBLE_ANGLE_QUOTATION_MARK"),
   (0x2013, "EN_DASH"), (0x2014, "EM_DASH"), (0x2015, "HORIZONTAL_BAR"),
   (0x2016, "DOUBLE_VERTICAL_LINE"), (0x2026, "HORIZONTAL_ELLIPSIS"),
   (0x00AD, "SOFT_HYPHEN"), (0x200E, "LEFT_TO_RIGHT_MARK"),
   (0x200F, "RIGHT_TO_LEFT_MARK"), (0x202A, "LEFT_TO_RIGHT_EMBEDDING"),
   (0x202B, "RIGHT_TO_LEFT_EMBEDDING"), (0x202C, "POP_DIRECTIONAL_FORMATTING"),
   (0x202D, "LEFT_TO_RIGHT_OVERRIDE"), (0x202E, "RIGHT_TO_LEFT_OVERRIDE"),
   (0x2061, "FUNCTION_APPLICATION"), (0x2062, "INVISIBLE_TIMES"),
   (0x2063, "INVISIBLE_SEPARATOR"), (0x2064, "INVISIBLE_PLUS"),
   (0x2066, "LEFT_TO_RIGHT_ISOLATE"), (0x2067, "RIGHT_TO_LEFT_ISOLATE"),
   (0x2068, "FIRST_STRONG_ISOLATE"), (0x2069, "POP_DIRECTIONAL_ISOLATE"),
   (0x2212, "MINUS_SIGN"), (0xFE58, "SMALL_EM_DASH"),
   (0xFE63, "SMALL_HYPHEN_MINUS"), (0xFFFC, "OBJECT_REPLACEMENT_CHARACTER"),
   (0xFFFD, "REPLACEMENT_CHARACTER")]

/-- isActualEmoji of src/index.ts: emoji block ranges, code taken with
codePointAt(0).  Note: in JavaScript the guard (if (!code) return false)
rejects code point 0, which is outside every range anyway. -/
def isActualEmoji (c : Nat) : Bool :=
  (0x1F600 ≤ c && c ≤ 0x1F64F) ||
  (0x1F300 ≤ c && c ≤ 0x1F5FF) ||
  (0x1F680 ≤ c && c ≤ 0x1F6FF) ||
  (0x1F700 ≤ c && c ≤ 0x1F77F) ||
  (0x1F780 ≤ c && c ≤ 0x1F7FF) ||
  (0x1F800 ≤ c && c ≤ 0x1F8FF) ||
  (0x1F900 ≤ c && c ≤ 0x1F9FF) ||
  (0x1FA00 ≤ c && c ≤ 0x1FA6F) ||
  (0x1FA70 ≤ c && c ≤ 0x1FAFF) ||
  (0x2600 ≤ c && c ≤ 0x26FF) ||
  (0x2700 ≤ c && c ≤ 0x27BF) ||
  (0x1F1E6 ≤ c && c ≤ 0x1F1FF) ||
  (0x1F191 ≤ c && c ≤ 0x1F251) ||
  (0x1F100 ≤ c && c ≤ 0x1F1FF) ||
  (0x2300 ≤ c && c ≤ 0x23FF) ||
  (0x2B50 ≤ c && c ≤ 0x2B55)

/-- isEmoji of src/index.ts: emoji or emoji modifier. -/
def isEmoji (c : Nat) : Bool :=
  isActualEmoji c ||
  (0xFE00 ≤ c && c ≤ 0xFE0F) ||
  c = 0x200D ||
  (0x1F3FB ≤ c && c ≤ 0x1F3FF)

/-- isKeyboardChar of src/index.ts (the code is charCodeAt(0) of the
one-character string; emptiness of the character cannot arise for a
scalar value). -/
def isKeyboardChar (c : Nat) : Bool :=
  let code := charCodeAt0 c
  ((32 ≤ code && code ≤ 126) || code = 9 || code = 10 || code = 13) ||
  isEmoji c

/-- getCharName of src/index.ts. -/
def getCharName (code : Nat) : String :=
  match (CHAR_NAMES.lookup code) with
  | some n => n
  | none => "U+" ++ hexPadStart4 code

/-- normalizeSpaces of src/index.ts: reduce over UNICODE_SPACES replacing
each by ASCII space. -/
def normalizeSpaces (text : List Nat) : List Nat :=
  UNICODE_SPACES.foldl (fun result space => replaceAllChar result space [32]) text

/-- normalizeQuotes of src/index.ts: reduce over the entries of the merged
single- and double-quote maps. -/
def normalizeQuotes (text : List Nat) : List Nat :=
  (SINGLE_QUOTE_MAP ++ DOUBLE_QUOTE_MAP).foldl
    (fun result p => replaceAllChar result p.1 [p.2]) text

/-- normalizeDashes of src/index.ts. -/
def normalizeDashes (text : List Nat) : List Nat :=
  DASH_MAP.foldl (fun result p => replaceAllChar result p.1 [p.2]) text

/-- normalizeEllipsis of src/index.ts: the ellipsis becomes three periods. -/
def normalizeEllipsis (text : List Nat) : List Nat :=
  replaceAllChar text 0x2026 [0x2E, 0x2E, 0x2E]

/-- containsEmoji of src/index.ts: some character is an actual emoji. -/
def containsEmoji (text : List Nat) : Bool :=
  text.any isActualEmoji

/-- removeInvisibleChars of src/index.ts: strip variation selectors, then
reduce over INVISIBLE_CHARS removing each. -/
def removeInvisibleChars (text : List Nat) : List Nat :=
  INVISIBLE_CHARS.foldl (fun result c => replaceAllChar result c [])
    (text.filter (fun c => !(isVariationSelector c)))

/-- removeInvisibleCharsExceptEmoji of src/index.ts. -/
def removeInvisibleCharsExceptEmoji (text : List Nat) : List Nat :=
  if !(containsEmoji text) then removeInvisibleChars text
  else
    (INVISIBLE_CHARS.filter (fun c => !(EMOJI_INVISIBLE_CHARS.contains c))).foldl
      (fun result c => replaceAllChar result c []) text

/-- The filtering predicate of filterChars in src/index.ts (code is
charCodeAt(0) of the character). -/
def filterPred (preserveLineBreaks preserveTabs : Bool) (c : Nat) : Bool :=
  let code := charCodeAt0 c
  (32 ≤ code && code ≤ 126) ||
  (preserveLineBreaks && (code = 10 || code = 13)) ||
  (preserveTabs && code = 9) ||
  isEmoji c

/-- filterChars of src/index.ts. -/
def filterChars (text : List Nat) (preserveLineBreaks preserveTabs : Bool) :
    List Nat :=
  text.filter (filterPred preserveLineBreaks preserveTabs)

/-- The run class collapsed by collapseWhitespace for a given pair of
preservation flags (the character class of the regex chosen in each of
the four branches). -/
def wsClass (preserveLineBreaks preserveTabs : Bool) (c : Nat) : Bool :=
  if preserveLineBreaks && preserveTabs then c = 32 || c = 9
  else if preserveLineBreaks then c = 32
  else if preserveTabs then c = 32 || c = 10 || c = 13
  else isJsWhitespace c

/-- collapseWhitespace of src/index.ts: four regex branches over the cross
product of the preservation flags, each replacing maximal runs by one
space. -/
def collapseWhitespace (text : List Nat)
    (preserveLineBreaks preserveTabs : Bool) : List Nat :=
  if preserveLineBreaks && preserveTabs then
    collapseRuns (fun c => c = 32 || c = 9) text
  else if preserveLineBreaks then
    collapseRuns (fun c => c = 32) text
  else if preserveTabs then
    collapseRuns (fun c => c = 32 || c = 10 || c = 13) text
  else
    collapseRuns isJsWhitespace text

/-- Issue of src/index.ts; the one-character string char is modelled by its
scalar value. -/
structure Issue where
  char : Nat
  code : Nat
  codeHex : String
  position : Nat
  name : String
deriving DecidableEq

/-- detectNonKeyboardChars of src/index.ts: enumerate scalar values with
their positions, keep the non-keyboard ones, and build issues; the code
field is charCodeAt(0) of the character. -/
def detectNonKeyboardChars (text : List Nat) : List Issue :=
  ((text.enum.map (fun p => (p.2, p.1))).filter
      (fun p => !(isKeyboardChar p.1))).map
    (fun p =>
      let code := charCodeAt0 p.1
      ⟨p.1, code, "U+" ++ hexPadStart4 code, p.2, getCharName code⟩)

/-- One summary entry: name, count and representative hex code. -/
structure SummaryEntry where
  name : String
  count : Nat
  code : String
deriving DecidableEq

/-- Insert an issue into the summary, modelling JavaScript object update
(an existing key keeps its place, a new key is appended). -/
def summaryInsert (s : List SummaryEntry) (i : Issue) : List SummaryEntry :=
  if s.any (fun e => e.name = i.name) then
    s.map (fun e => if e.name = i.name then ⟨e.name, e.count + 1, i.codeHex⟩ else e)
  else s ++ [⟨i.name, 1, i.codeHex⟩]

/-- createSummary of src/index.ts. -/
def createSummary (issues : List Issue) : List SummaryEntry :=
  issues.foldl summaryInsert []

/-- sanitize of src/index.ts: merge the options over the defaults, then
apply the transformation pipeline left to right. -/
def sanitize (text : List Nat) (options : CleanOptions) : List Nat :=
  let opts := resolveOptions options
  let transformations : List (List Nat → List Nat) :=
    [removeInvisibleCharsExceptEmoji,
     if opts.normalizeSpaces then normalizeSpaces else fun t => t,
     if opts.normalizeQuotes then normalizeQuotes else fun t => t,
     if opts.normalizeDashes then normalizeDashes else fun t => t,
     if opts.normalizeEllipsis then normalizeEllipsis else fun t => t,
     fun t => filterChars t opts.preserveLineBreaks opts.preserveTabs,
     if opts.collapseWhitespace then
       (fun t => collapseWhitespace t opts.preserveLineBreaks opts.preserveTabs)
     else fun t => t,
     if opts.trim then trimJs else fun t => t]
  transformations.foldl (fun acc f => f acc) text

/-- clean of src/index.ts: sanitize under the standard preset overridden by
the caller options (calling clean with no second argument is the same as
passing the empty options record, the default parameter value). -/
def clean (text : List Nat) (options : CleanOptions) : List Nat :=
  sanitize text (mergeCleanOptions presetStandard options)

/-- cleanWith of src/index.ts.  The guard is the JavaScript truthiness
test of the property access presets[preset], which consults the prototype
chain: only a name that is neither an own key nor an Object.prototype
member throws; the error message lists the registry's own keys in
insertion order. -/
def cleanWith (text : List Nat) (preset : String) : Except String (List Nat) :=
  match presetsGet preset with
  | none =>
      Except.error ("Unknown preset: " ++ preset ++
        ". Available: strict, standard, lenient, llm")
  | some opts => Except.ok (sanitize text opts)

/-- normalize of src/index.ts. -/
def normalize (text : List Nat) : List Nat :=
  sanitize text
    ⟨some true, some true, some true, some true, some true, some true,
     some false, some false⟩

/-- findIssues of src/index.ts. -/
def findIssues (text : List Nat) : List Issue :=
  detectNonKeyboardChars text

/-- isClean of src/index.ts. -/
def isClean (text : List Nat) : Bool :=
  (detectNonKeyboardChars text).length = 0

/-- InspectionReport of src/index.ts. -/
structure InspectionReport where
  clean : Bool
  issueCount : Nat
  issues : List Issue
  summary : List SummaryEntry
deriving DecidableEq

/-- inspect of src/index.ts. -/
def inspect (text : List Nat) : InspectionReport :=
  let issues := detectNonKeyboardChars text
  ⟨issues.length = 0, issues.length, issues, createSummary issues⟩

end Unllm

namespace UnllmV0

/-- CleanOptions of src/unnamed/part_000. -/
structure CleanOptions where
  invisible : Option Bool := none
  spaces : Option Bool := none
  dashes : Option Bool := none
  ellipsis : Option Bool := none
deriving DecidableEq

/-- Required CleanOptions of src/unnamed/part_000. -/
structure RequiredCleanOptions where
  invisible : Bool
  spaces : Bool
  dashes : Bool
  ellipsis : Bool
deriving DecidableEq

/-- defaultOptions of src/unnamed/part_000: invisible and spaces on,
dashes and ellipsis off. -/
def defaultOptions : RequiredCleanOptions := ⟨true, true, false, false⟩

/-- The object spread of defaultOptions under caller options. -/
def resolveOptions (o : CleanOptions) : RequiredCleanOptions :=
  ⟨o.invisible.getD defaultOptions.invisible,
   o.spaces.getD defaultOptions.spaces,
   o.dashes.getD defaultOptions.dashes,
   o.ellipsis.getD defaultOptions.ellipsis⟩

/-- UNICODE_SPACES of src/unnamed/part_000. -/
def UNICODE_SPACES : List Nat :=
  [0xA0, 0x1680, 0x2000, 0x2001, 0x2002, 0x2003, 0x2004, 0x2005, 0x2006,
   0x2007, 0x2008, 0x2009, 0x200A, 0x202F, 0x205F, 0x3000]

/-- DASH_MAP of src/unnamed/part_000, as replacement sequences: the three
dash variants map to ASCII hyphen, the soft hyphen maps to the empty
string. -/
def DASH_MAP : List (Nat × List Nat) :=
  [(0x2013, [0x2D]), (0x2014, [0x2D]), (0x2212, [0x2D]), (0x00AD, [])]

/-- INVISIBLE_CHARS of src/unnamed/part_000: the control and invisible
code points the library removes (note that the zero-width joiner 0x200D
is handled separately and is not in this table). -/
def INVISIBLE_CHARS : List Nat :=
  [0x0000, 0x0001, 0x0002, 0x0003, 0x0004, 0x0005, 0x0006, 0x0007, 0x0008,
   0x000B, 0x000C, 0x000E, 0x000F, 0x0010, 0x0011, 0x0012, 0x0013, 0x0014,
   0x0015, 0x0016, 0x0017, 0x0018, 0x0019, 0x001A, 0x001B, 0x001C, 0x001D,
   0x001E, 0x001F, 0x007F, 0x0080, 0x0081, 0x0082, 0x0083, 0x0084, 0x0085,
   0x0086, 0x0087, 0x0088, 0x0089, 0x008A, 0x008B, 0x008C, 0x008D, 0x008E,
   0x008F, 0x0090, 0x0091, 0x0092, 0x0093, 0x0094, 0x0095, 0x0096, 0x0097,
   0x0098, 0x0099, 0x009A, 0x009B, 0x009C, 0x009D, 0x009E, 0x009F, 0x200B,
   0x200C, 0x200E, 0x200F, 0x2060, 0x2061, 0x2062, 0x2063, 0x2064, 0xFEFF]

/-- isEmoji of src/unnamed/part_000 (includes variation selectors and
skin-tone modifiers, but not the zero-width joiner). -/
def isEmoji (c : Nat) : Bool :=
  (0x1F600 ≤ c && c ≤ 0x1F64F) ||
  (0x1F300 ≤ c && c ≤ 0x1F5FF) ||
  (0x1F680 ≤ c && c ≤ 0x1F6FF) ||
  (0x1F700 ≤ c && c ≤ 0x1F77F) ||
  (0x1F780 ≤ c && c ≤ 0x1F7FF) ||
  (0x1F800 ≤ c && c ≤ 0x1F8FF) ||
  (0x1F900 ≤ c && c ≤ 0x1F9FF) ||
  (0x1FA00 ≤ c && c ≤ 0x1FA6F) ||
  (0x1FA70 ≤ c && c ≤ 0x1FAFF) ||
  (0x2600 ≤ c && c ≤ 0x26FF) ||
  (0x2700 ≤ c && c ≤ 0x27BF) ||
  (0xFE00 ≤ c && c ≤ 0xFE0F) ||
  (0x1F1E6 ≤ c && c ≤ 0x1F1FF) ||
  (0x1F3FB ≤ c && c ≤ 0x1F3FF)

/-- The per-character body of containsEmoji in src/unnamed/part_000:
actual emoji block ranges, without modifiers. -/
def isActualEmojiChar (c : Nat) : Bool :=
  (0x1F600 ≤ c && c ≤ 0x1F64F) ||
  (0x1F300 ≤ c && c ≤ 0x1F5FF) ||
  (0x1F680 ≤ c && c ≤ 0x1F6FF) ||
  (0x1F700 ≤ c && c ≤ 0x1F77F) ||
  (0x1F780 ≤ c && c ≤ 0x1F7FF) ||
  (0x1F800 ≤ c && c ≤ 0x1F8FF) ||
  (0x1F900 ≤ c && c ≤ 0x1F9FF) ||
  (0x1FA00 ≤ c && c ≤ 0x1FA6F) ||
  (0x1FA70 ≤ c && c ≤ 0x1FAFF) ||
  (0x2600 ≤ c && c ≤ 0x26FF) ||
  (0x2700 ≤ c && c ≤ 0x27BF) ||
  (0x1F1E6 ≤ c && c ≤ 0x1F1FF)

/-- containsEmoji of src/unnamed/part_000. -/
def containsEmoji (text : List Nat) : Bool :=
  text.any isActualEmojiChar

/-- needsCleaning of src/unnamed/part_000.  The JavaScript body is a chain
of early returns; each branch below returns exactly the value the source
returns at the same point. -/
def needsCleaning (c : Nat) (options : RequiredCleanOptions) : Bool :=
  if isEmoji c then false
  else if options.invisible && INVISIBLE_CHARS.contains c then true
  else if options.invisible && c = 0x200D then !(isEmoji c)
  else if options.spaces && UNICODE_SPACES.contains c then true
  else if options.dashes && (DASH_MAP.map Prod.fst).contains c then true
  else if options.ellipsis && c = 0x2026 then true
  else false

/-- Issue type of src/unnamed/part_000. -/
inductive IssueType where
  | control
  | invisible
  | typography
deriving DecidableEq

/-- getCharInfo of src/unnamed/part_000: the type and display name of a
flagged character. -/
def getCharInfo (c code : Nat) : IssueType × String :=
  if code ≤ 0x001F then
    if code = 0x0000 then (IssueType.control, "NULL")
    else if code = 0x0008 then (IssueType.control, "BACKSPACE")
    else if code = 0x000B then (IssueType.control, "VERTICAL TAB")
    else if code = 0x000C then (IssueType.control, "FORM FEED")
    else (IssueType.control, "CONTROL_" ++ toHexUpper code)
  else if 0x007F ≤ code && code ≤ 0x009F then
    if code = 0x007F then (IssueType.control, "DELETE")
    else (IssueType.control, "CONTROL_" ++ toHexUpper code)
  else if code = 0x200B then (IssueType.invisible, "ZERO WIDTH SPACE")
  else if code = 0x200C then (IssueType.invisible, "ZERO WIDTH NON-JOINER")
  else if code = 0x200D then (IssueType.invisible, "ZERO WIDTH JOINER")
  else if code = 0x200E then (IssueType.invisible, "LEFT-TO-RIGHT MARK")
  else if code = 0x200F then (IssueType.invisible, "RIGHT-TO-LEFT MARK")
  else if code = 0x2060 then (IssueType.invisible, "WORD JOINER")
  else if code = 0x2061 then (IssueType.invisible, "FUNCTION APPLICATION")
  else if code = 0x2062 then (IssueType.invisible, "INVISIBLE TIMES")
  else if code = 0x2063 then (IssueType.invisible, "INVISIBLE SEPARATOR")
  else if code = 0x2064 then (IssueType.invisible, "INVISIBLE PLUS")
  else if code = 0xFEFF then
    (IssueType.invisible, "ZERO WIDTH NO-BREAK SPACE (BOM)")
  else if UNICODE_SPACES.contains c then
    if code = 0x00A0 then (IssueType.typography, "NO-BREAK SPACE")
    else if code = 0x202F then (IssueType.typography, "NARROW NO-BREAK SPACE")
    else (IssueType.typography, "UNICODE SPACE")
  else if (DASH_MAP.map Prod.fst).contains c then
    if code = 0x2013 then (IssueType.typography, "EN DASH")
    else if code = 0x2014 then (IssueType.typography, "EM DASH")
    else if code = 0x2212 then (IssueType.typography, "MINUS SIGN")
    else if code = 0x00AD then (IssueType.typography, "SOFT HYPHEN")
    else (IssueType.typography, "U+" ++ hexPadStart4 code)
  else (IssueType.typography, "U+" ++ hexPadStart4 code)

/-- Issue of src/unnamed/part_000 (the one-character string char is
modelled by its scalar value; code is codePointAt(0), which for a scalar
value is the value itself). -/
structure Issue where
  char : Nat
  code : Nat
  hex : String
  position : Nat
  type : IssueType
  name : String
deriving DecidableEq

/-- inspect of src/unnamed/part_000: walk the scalar values with their
positions and record every character that needsCleaning flags. -/
def inspect (text : List Nat) (options : CleanOptions) : List Issue :=
  let opts := resolveOptions options
  (text.enum.filter (fun p => needsCleaning p.2 opts)).map
    (fun p =>
      let code := p.2
      let info := getCharInfo p.2 code
      ⟨p.2, code, "U+" ++ hexPadStart4 code, p.1, info.1, info.2⟩)

/-- clean of src/unnamed/part_000: sequential replaceAll passes.  In the
source the invisible pass skips the zero-width joiner when it appears in
INVISIBLE_CHARS and emojis are present (dead code, since 0x200D is not in
that table) and then removes the zero-width joiner only when the text has
no emoji. -/
def clean (text : List Nat) (options : CleanOptions) : List Nat :=
  let opts := resolveOptions options
  let hasEmojis := containsEmoji text
  let r1 :=
    if opts.invisible then
      let afterTable := INVISIBLE_CHARS.foldl
        (fun result code =>
          if code = 0x200D && hasEmojis then result
          else replaceAllChar result code []) text
      if !hasEmojis then replaceAllChar afterTable 0x200D [] else afterTable
    else text
  let r2 :=
    if opts.spaces then
      UNICODE_SPACES.foldl (fun result space => replaceAllChar result space [32]) r1
    else r1
  let r3 :=
    if opts.dashes then
      DASH_MAP.foldl (fun result p => replaceAllChar result p.1 p.2) r2
    else r2
  let r4 :=
    if opts.ellipsis then replaceAllChar r3 0x2026 [0x2E, 0x2E, 0x2E] else r3
  r4

end UnllmV0

/-! ## Generic lemmas about the string-operation models -/

theorem flatMap_eq_self {f : Nat → List Nat} {l : List Nat}
    (h : ∀ c ∈ l, f c = [c]) : l.flatMap f = l := by
  induction l with
  | nil => rfl
  | cons a l ih =>
      rw [List.flatMap_cons, h a (List.mem_cons_self a l),
        ih (fun c hc => h c (List.mem_cons_of_mem a hc))]
      rfl

theorem replaceAllChar_nil (pat : Nat) (rep : List Nat) :
    replaceAllChar [] pat rep = [] := rfl

theorem replaceAllChar_cons (a : Nat) (l : List Nat) (pat : Nat) (rep : List Nat) :
    replaceAllChar (a :: l) pat rep =
      (if a = pat then rep else [a]) ++ replaceAllChar l pat rep := by
  simp [replaceAllChar]

theorem replaceAllChar_eq_self {l : List Nat} {pat : Nat} (rep : List Nat)
    (h : pat ∉ l) : replaceAllChar l pat rep = l := by
  refine flatMap_eq_self (fun c hc => ?_)
  have : c ≠ pat := fun e => h (e ▸ hc)
  simp [this]

theorem mem_replaceAllChar {c : Nat} {l : List Nat} {pat : Nat} (rep : List Nat)
    (hc : c ∈ l) (hne : c ≠ pat) : c ∈ replaceAllChar l pat rep := by
  induction l with
  | nil => cases hc
  | cons a l ih =>
      rw [replaceAllChar_cons]
      rcases List.mem_cons.mp hc with h | h
      · subst h
        simp [hne]
      · exact List.mem_append_right _ (ih h)

theorem mem_of_mem_replaceAllChar {c : Nat} {l : List Nat} {pat : Nat}
    {rep : List Nat} (h : c ∈ replaceAllChar l pat rep) :
    c ∈ rep ∨ (c ∈ l ∧ c ≠ pat) := by
  induction l with
  | nil => cases h
  | cons a l ih =>
      rw [replaceAllChar_cons] at h
      rcases List.mem_append.mp h with h | h
      · by_cases ha : a = pat
        · simp [ha] at h
          exact Or.inl h
        · simp [ha] at h
          subst h
          exact Or.inr ⟨List.mem_cons_self _ _, ha⟩
      · rcases ih h with h | ⟨h1, h2⟩
        · exact Or.inl h
        · exact Or.inr ⟨List.mem_cons_of_mem a h1, h2⟩

theorem not_mem_replaceAllChar {c : Nat} {l : List Nat} {pat : Nat}
    {rep : List Nat} (hc : c ∉ l) (hr : c ∉ rep) :
    c ∉ replaceAllChar l pat rep := by
  intro h
  rcases mem_of_mem_replaceAllChar h with h | ⟨h, _⟩
  · exact hr h
  · exact hc h

theorem not_mem_replaceAllChar_self {l : List Nat} {pat : Nat} {rep : List Nat}
    (hr : pat ∉ rep) : pat ∉ replaceAllChar l pat rep := by
  intro h
  rcases mem_of_mem_replaceAllChar h with h | ⟨_, h⟩
  · exact hr h
  · exact h rfl

theorem filter_replaceAllChar {X : Nat → Bool} {l : List Nat} {pat : Nat}
    {rep : List Nat} (hk : X pat = false) (hr : ∀ c ∈ rep, X c = false) :
    (replaceAllChar l pat rep).filter X = l.filter X := by
  induction l with
  | nil => rfl
  | cons a l ih =>
      rw [replaceAllChar_cons, List.filter_append, ih]
      by_cases ha : a = pat
      · have h1 : List.filter X (if a = pat then rep else [a]) = [] := by
          rw [if_pos ha]
          exact List.filter_eq_nil_iff.mpr (fun c hc => by simp [hr c hc])
        rw [h1, List.filter_cons_of_neg (by simp [ha, hk])]
        rfl
      · rw [if_neg ha]
        by_cases hX : X a <;> simp [List.filter_cons, hX]

theorem sublist_filter_replaceAllChar {X : Nat → Bool} {l : List Nat}
    {pat : Nat} (rep : List Nat) (hk : X pat = false) :
    List.Sublist (l.filter X) ((replaceAllChar l pat rep).filter X) := by
  induction l with
  | nil => simp [replaceAllChar_nil]
  | cons a l ih =>
      rw [replaceAllChar_cons, List.filter_append]
      by_cases ha : a = pat
      · subst ha
        rw [List.filter_cons_of_neg (by simp [hk])]
        exact ih.trans (List.sublist_append_right _ _)
      · simp only [List.filter_cons]
        by_cases hX : X a
        · simp [hX, ha, List.filter_cons]
          exact ih
        · simp [hX, ha, List.filter_cons]
          exact ih

/-- Sequential application of single-character substitutions, the common
shape of the reduce and forEach passes in the source. -/
def applySubsts (t : List Nat) (ps : List (Nat × List Nat)) : List Nat :=
  ps.foldl (fun r p => replaceAllChar r p.1 p.2) t

theorem applySubsts_nil (t : List Nat) : applySubsts t [] = t := rfl

theorem applySubsts_cons (t : List Nat) (p : Nat × List Nat)
    (ps : List (Nat × List Nat)) :
    applySubsts t (p :: ps) = applySubsts (replaceAllChar t p.1 p.2) ps := rfl

theorem applySubsts_eq_self {t : List Nat} {ps : List (Nat × List Nat)}
    (h : ∀ p ∈ ps, p.1 ∉ t) : applySubsts t ps = t := by
  induction ps with
  | nil => rfl
  | cons p ps ih =>
      rw [applySubsts_cons,
        replaceAllChar_eq_self _ (h p (List.mem_cons_self p ps))]
      exact ih (fun q hq => h q (List.mem_cons_of_mem p hq))

theorem filter_applySubsts {X : Nat → Bool} {t : List Nat}
    {ps : List (Nat × List Nat)}
    (h : ∀ p ∈ ps, X p.1 = false ∧ ∀ c ∈ p.2, X c = false) :
    (applySubsts t ps).filter X = t.filter X := by
  induction ps generalizing t with
  | nil => rfl
  | cons p ps ih =>
      rw [applySubsts_cons, ih (fun q hq => h q (List.mem_cons_of_mem p hq))]
      exact filter_replaceAllChar (h p (List.mem_cons_self p ps)).1
        (h p (List.mem_cons_self p ps)).2

theorem sublist_filter_applySubsts {X : Nat → Bool} {t : List Nat}
    {ps : List (Nat × List Nat)} (h : ∀ p ∈ ps, X p.1 = false) :
    List.Sublist (t.filter X) ((applySubsts t ps).filter X) := by
  induction ps generalizing t with
  | nil => exact List.Sublist.refl _
  | cons p ps ih =>
      rw [applySubsts_cons]
      exact (sublist_filter_replaceAllChar p.2
          (h p (List.mem_cons_self p ps))).trans
        (ih (fun q hq => h q (List.mem_cons_of_mem p hq)))

theorem mem_applySubsts {c : Nat} {t : List Nat} {ps : List (Nat × List Nat)}
    (hc : c ∈ t) (h : ∀ p ∈ ps, c ≠ p.1) : c ∈ applySubsts t ps := by
  induction ps generalizing t with
  | nil => exact hc
  | cons p ps ih =>
      rw [applySubsts_cons]
      exact ih (mem_replaceAllChar _ hc (h p (List.mem_cons_self p ps)))
        (fun q hq => h q (List.mem_cons_of_mem p hq))

theorem mem_of_mem_applySubsts {c : Nat} {t : List Nat}
    {ps : List (Nat × List Nat)} (h : c ∈ applySubsts t ps) :
    c ∈ t ∨ ∃ p ∈ ps, c ∈ p.2 := by
  induction ps generalizing t with
  | nil => exact Or.inl h
  | cons p ps ih =>
      rw [applySubsts_cons] at h
      rcases ih h with h | ⟨q, hq, hcq⟩
      · rcases mem_of_mem_replaceAllChar h with h | ⟨h, _⟩
        · exact Or.inr ⟨p, List.mem_cons_self p ps, h⟩
        · exact Or.inl h
      · exact Or.inr ⟨q, List.mem_cons_of_mem p hq, hcq⟩

theorem not_mem_applySubsts {c : Nat} {t : List Nat}
    {ps : List (Nat × List Nat)} (hc : c ∉ t) (h : ∀ p ∈ ps, c ∉ p.2) :
    c ∉ applySubsts t ps := by
  intro hmem
  rcases mem_of_mem_applySubsts hmem with h1 | ⟨q, hq, hcq⟩
  · exact hc h1
  · exact h q hq hcq

theorem not_mem_applySubsts_of_key {k : Nat} {t : List Nat}
    {ps : List (Nat × List Nat)} (hr : ∀ p ∈ ps, k ∉ p.2)
    (hk : k ∈ ps.map Prod.fst) : k ∉ applySubsts t ps := by
  induction ps generalizing t with
  | nil => cases hk
  | cons p ps ih =>
      rw [applySubsts_cons]
      by_cases hkp : k = p.1
      · subst hkp
        exact not_mem_applySubsts
          (not_mem_replaceAllChar_self (hr p (List.mem_cons_self p ps)))
          (fun q hq => hr q (List.mem_cons_of_mem p hq))
      · have : k ∈ ps.map Prod.fst := by
          rcases List.mem_map.mp hk with ⟨q, hq, hq2⟩
          rcases List.mem_cons.mp hq with h | h
          · exact absurd (h ▸ hq2).symm hkp
          · exact List.mem_map.mpr ⟨q, h, hq2⟩
        exact ih (fun q hq => hr q (List.mem_cons_of_mem p hq)) this

/-! ## Lemmas about dropWhile, trim and run collapsing -/

theorem mem_dropWhile_of_neg {p : Nat → Bool} {c : Nat} {l : List Nat}
    (hc : c ∈ l) (h : p c = false) : c ∈ l.dropWhile p := by
  induction l with
  | nil => cases hc
  | cons a l ih =>
      by_cases pa : p a
      · rw [List.dropWhile_cons_of_pos pa]
        rcases List.mem_cons.mp hc with h1 | h1
        · subst h1
          rw [pa] at h
          cases h
        · exact ih h1
      · rw [List.dropWhile_cons_of_neg pa]
        exact hc

theorem head_dropWhile_neg {p : Nat → Bool} {l : List Nat} {c : Nat}
    (h : (l.dropWhile p).head? = some c) : p c = false := by
  induction l with
  | nil => cases h
  | cons a l ih =>
      by_cases pa : p a
      · rw [List.dropWhile_cons_of_pos pa] at h
        exact ih h
      · rw [List.dropWhile_cons_of_neg pa] at h
        cases h
        exact Bool.not_eq_true _ ▸ (by simpa using pa)

theorem dropWhile_eq_self_of_head {p : Nat → Bool} {l : List Nat}
    (h : ∀ c, l.head? = some c → p c = false) : l.dropWhile p = l := by
  cases l with
  | nil => rfl
  | cons a l => exact List.dropWhile_cons_of_neg (by simp [h a rfl])

theorem dropWhile_idem (p : Nat → Bool) (l : List Nat) :
    (l.dropWhile p).dropWhile p = l.dropWhile p :=
  dropWhile_eq_self_of_head (fun _ h => head_dropWhile_neg h)

theorem filter_dropWhile {X p : Nat → Bool} {l : List Nat}
    (h : ∀ c, p c = true → X c = false) :
    (l.dropWhile p).filter X = l.filter X := by
  induction l with
  | nil => rfl
  | cons a l ih =>
      by_cases pa : p a
      · rw [List.dropWhile_cons_of_pos pa, ih,
          List.filter_cons_of_neg (by simp [h a pa])]
      · rw [List.dropWhile_cons_of_neg pa]

theorem mem_of_mem_trimJs {c : Nat} {l : List Nat} (h : c ∈ trimJs l) :
    c ∈ l := by
  unfold trimJs at h
  have h1 := List.mem_reverse.mp h
  have h2 := (List.dropWhile_sublist isJsWhitespace).subset h1
  have h3 := List.mem_reverse.mp h2
  exact (List.dropWhile_sublist isJsWhitespace).subset h3

theorem mem_trimJs {c : Nat} {l : List Nat} (hc : c ∈ l)
    (h : isJsWhitespace c = false) : c ∈ trimJs l := by
  unfold trimJs
  exact List.mem_reverse.mpr (mem_dropWhile_of_neg
    (List.mem_reverse.mpr (mem_dropWhile_of_neg hc h)) h)

theorem filter_trimJs {X : Nat → Bool} {l : List Nat}
    (h : ∀ c, isJsWhitespace c = true → X c = false) :
    (trimJs l).filter X = l.filter X := by
  unfold trimJs
  rw [List.filter_reverse, filter_dropWhile h, List.filter_reverse,
    List.reverse_reverse, filter_dropWhile h]

theorem trimJs_decomp (l : List Nat) :
    ∃ u v, l = u ++ (trimJs l ++ v) := by
  rcases List.dropWhile_suffix (l := l) isJsWhitespace with ⟨u, hu⟩
  rcases List.dropWhile_suffix (l := (l.dropWhile isJsWhitespace).reverse)
      isJsWhitespace with ⟨t, ht⟩
  refine ⟨u, t.reverse, ?_⟩
  have hd : l.dropWhile isJsWhitespace = trimJs l ++ t.reverse := by
    have := congrArg List.reverse ht
    rw [List.reverse_append, List.reverse_reverse] at this
    exact this.symm
  conv_lhs => rw [← hu, hd]

theorem trimJs_idem (l : List Nat) : trimJs (trimJs l) = trimJs l := by
  have hhead : ∀ c, (trimJs l).head? = some c → isJsWhitespace c = false := by
    intro c hc
    rcases List.dropWhile_suffix (l := (l.dropWhile isJsWhitespace).reverse)
        isJsWhitespace with ⟨t, ht⟩
    have hd : l.dropWhile isJsWhitespace = trimJs l ++ t.reverse := by
      have := congrArg List.reverse ht
      rw [List.reverse_append, List.reverse_reverse] at this
      exact this.symm
    have : (l.dropWhile isJsWhitespace).head? = some c := by
      rw [hd]
      cases htl : trimJs l with
      | nil => rw [htl] at hc; cases hc
      | cons a rest =>
          rw [htl] at hc
          cases hc
          rfl
    exact head_dropWhile_neg this
  have h1 : (trimJs l).dropWhile isJsWhitespace = trimJs l :=
    dropWhile_eq_self_of_head hhead
  show (((trimJs l).dropWhile isJsWhitespace).reverse.dropWhile
      isJsWhitespace).reverse = trimJs l
  rw [h1]
  have h2 : (trimJs l).reverse =
      (l.dropWhile isJsWhitespace).reverse.dropWhile isJsWhitespace := by
    unfold trimJs
    rw [List.reverse_reverse]
  rw [h2, dropWhile_idem, ← h2, List.reverse_reverse]

theorem mem_of_mem_collapseAux {p : Nat → Bool} {c : Nat} :
    ∀ {b : Bool} {l : List Nat}, c ∈ collapseAux p b l → c = 32 ∨ c ∈ l := by
  intro b l
  induction l generalizing b with
  | nil => intro h; cases h
  | cons a l ih =>
      intro h
      by_cases pa : p a
      · rw [collapseAux, if_pos pa] at h
        cases b with
        | true =>
            rcases ih h with h1 | h1
            · exact Or.inl h1
            · exact Or.inr (List.mem_cons_of_mem a h1)
        | false =>
            rcases List.mem_cons.mp h with h1 | h1
            · exact Or.inl h1
            · rcases ih h1 with h2 | h2
              · exact Or.inl h2
              · exact Or.inr (List.mem_cons_of_mem a h2)
      · rw [collapseAux, if_neg pa] at h
        rcases List.mem_cons.mp h with h1 | h1
        · exact Or.inr (h1 ▸ List.mem_cons_self a l)
        · rcases ih h1 with h2 | h2
          · exact Or.inl h2
          · exact Or.inr (List.mem_cons_of_mem a h2)

theorem mem_collapseAux_of_neg {p : Nat → Bool} {c : Nat} {l : List Nat}
    (hc : c ∈ l) (h : p c = false) : ∀ b, c ∈ collapseAux p b l := by
  induction l with
  | nil => cases hc
  | cons a l ih =>
      intro b
      rcases List.mem_cons.mp hc with h1 | h1
      · subst h1
        rw [collapseAux, if_neg (by simp [h])]
        exact List.mem_cons_self _ _
      · by_cases pa : p a
        · rw [collapseAux, if_pos pa]
          cases b with
          | true => exact ih h1 true
          | false => exact List.mem_cons_of_mem 32 (ih h1 true)
        · rw [collapseAux, if_neg pa]
          exact List.mem_cons_of_mem a (ih h1 false)

theorem filter_collapseAux {X p : Nat → Bool} (hX32 : X 32 = false)
    (h : ∀ c, X c = true → p c = false) :
    ∀ (l : List Nat) (b : Bool), (collapseAux p b l).filter X = l.filter X := by
  intro l
  induction l with
  | nil => intro b; rfl
  | cons a l ih =>
      intro b
      by_cases pa : p a
      · have hXa : X a = false := by
          cases hXa : X a with
          | false => rfl
          | true =>
              have := h a hXa
              rw [this] at pa
              exact absurd pa (by simp)
        rw [collapseAux, if_pos pa]
        cases b with
        | true =>
            rw [if_pos rfl, ih true, List.filter_cons_of_neg (by simp [hXa])]
        | false =>
            rw [if_neg (by simp), List.filter_cons_of_neg (by simp [hX32]),
              ih true, List.filter_cons_of_neg (by simp [hXa])]
      · rw [collapseAux, if_neg pa]
        simp only [List.filter_cons, ih false]

/-- Normal form of run collapsing: every character of the run class is a
lone ASCII space followed by a character outside the class (or the end). -/
inductive CollNF (p : Nat → Bool) : List Nat → Prop where
  | nil : CollNF p []
  | consNot : ∀ {c : Nat} {l : List Nat},
      p c = false → CollNF p l → CollNF p (c :: l)
  | consSpace : ∀ {l : List Nat},
      (∀ c, l.head? = some c → p c = false) → CollNF p l → CollNF p (32 :: l)

theorem collNF_tail {p : Nat → Bool} {c : Nat} {l : List Nat}
    (h : CollNF p (c :: l)) : CollNF p l := by
  cases h with
  | consNot _ h2 => exact h2
  | consSpace _ h2 => exact h2

theorem collNF_collapseAux (p : Nat → Bool) (l : List Nat) :
    CollNF p (collapseAux p false l) ∧
      (CollNF p (collapseAux p true l) ∧
        ∀ c, (collapseAux p true l).head? = some c → p c = false) := by
  induction l with
  | nil => exact ⟨CollNF.nil, CollNF.nil, fun c h => by cases h⟩
  | cons a l ih =>
      rcases ih with ⟨hA, hB, hBh⟩
      by_cases pa : p a
      · refine ⟨?_, ?_, ?_⟩
        · rw [collapseAux, if_pos pa, if_neg (by simp)]
          exact CollNF.consSpace hBh hB
        · rw [collapseAux, if_pos pa, if_pos rfl]
          exact hB
        · rw [collapseAux, if_pos pa, if_pos rfl]
          exact hBh
      · refine ⟨?_, ?_, ?_⟩
        · rw [collapseAux, if_neg pa]
          exact CollNF.consNot (by simpa using pa) hA
        · rw [collapseAux, if_neg pa]
          exact CollNF.consNot (by simpa using pa) hA
        · rw [collapseAux, if_neg pa]
          intro c hc
          cases hc
          simpa using pa

theorem collapseAux_eq_self_of_collNF {p : Nat → Bool} {l : List Nat}
    (hp32 : p 32 = true) (h : CollNF p l) :
    collapseAux p false l = l ∧
      ((∀ c, l.head? = some c → p c = false) → collapseAux p true l = l) := by
  induction h with
  | nil => exact ⟨rfl, fun _ => rfl⟩
  | @consNot c l hc _ ih =>
      constructor
      · rw [collapseAux, if_neg (by simp [hc])]
        rw [ih.1]
      · intro _
        rw [collapseAux, if_neg (by simp [hc])]
        rw [ih.1]
  | @consSpace l hhead _ ih =>
      constructor
      · rw [collapseAux, if_pos hp32, if_neg (by simp)]
        rw [ih.2 hhead]
      · intro hh
        have := hh 32 rfl
        rw [hp32] at this
        cases this

theorem collNF_append_left {p : Nat → Bool} :
    ∀ {x y : List Nat}, CollNF p (x ++ y) → CollNF p x := by
  intro x
  induction x with
  | nil => intro y _; exact CollNF.nil
  | cons a x ih =>
      intro y h
      cases h with
      | consNot h1 h2 => exact CollNF.consNot h1 (ih h2)
      | consSpace h1 h2 =>
          refine CollNF.consSpace ?_ (ih h2)
          intro c hc
          refine h1 c ?_
          cases x with
          | nil => cases hc
          | cons d x2 =>
              cases hc
              rfl

theorem collNF_append_right {p : Nat → Bool} :
    ∀ {x y : List Nat}, CollNF p (x ++ y) → CollNF p y := by
  intro x
  induction x with
  | nil => intro y h; exact h
  | cons a x ih => intro y h; exact ih (collNF_tail h)

theorem collNF_trimJs {p : Nat → Bool} {l : List Nat} (h : CollNF p l) :
    CollNF p (trimJs l) := by
  rcases trimJs_decomp l with ⟨u, v, huv⟩
  rw [huv] at h
  exact collNF_append_left (collNF_append_right h)

theorem collNF_collapseRuns (p : Nat → Bool) (l : List Nat) :
    CollNF p (collapseRuns p l) :=
  (collNF_collapseAux p l).1

theorem collapseRuns_eq_self_of_collNF {p : Nat → Bool} {l : List Nat}
    (hp32 : p 32 = true) (h : CollNF p l) : collapseRuns p l = l :=
  (collapseAux_eq_self_of_collNF hp32 h).1

/-! ## Normal forms for the two cleaning pipelines -/

theorem applySubsts_append (t : List Nat) (ps qs : List (Nat × List Nat)) :
    applySubsts t (ps ++ qs) = applySubsts (applySubsts t ps) qs :=
  List.foldl_append ..

/-- The empty options record, the value of the optional options parameter
of clean in src/index.ts when the caller omits it. -/
def noOpts : Unllm.CleanOptions := ⟨none, none, none, none, none, none, none, none⟩

/-- The empty options record of src/unnamed/part_000. -/
def noOptsV0 : UnllmV0.CleanOptions := ⟨none, none, none, none⟩

def idxSpaceSubsts : List (Nat × List Nat) :=
  Unllm.UNICODE_SPACES.map (fun c => (c, [32]))

def idxQuoteSubsts : List (Nat × List Nat) :=
  (Unllm.SINGLE_QUOTE_MAP ++ Unllm.DOUBLE_QUOTE_MAP).map (fun p => (p.1, [p.2]))

def idxDashSubsts : List (Nat × List Nat) :=
  Unllm.DASH_MAP.map (fun p => (p.1, [p.2]))

def idxEllipsisSubsts : List (Nat × List Nat) := [(0x2026, [0x2E, 0x2E, 0x2E])]

def idxInvisSubsts : List (Nat × List Nat) :=
  Unllm.INVISIBLE_CHARS.map (fun c => (c, ([] : List Nat)))

def idxInvisNoZwjSubsts : List (Nat × List Nat) :=
  (Unllm.INVISIBLE_CHARS.filter
      (fun c => !(Unllm.EMOJI_INVISIBLE_CHARS.contains c))).map
    (fun c => (c, ([] : List Nat)))

theorem normalizeSpaces_eq (t : List Nat) :
    Unllm.normalizeSpaces t = applySubsts t idxSpaceSubsts := by
  unfold Unllm.normalizeSpaces applySubsts idxSpaceSubsts
  rw [List.foldl_map]

theorem normalizeQuotes_eq (t : List Nat) :
    Unllm.normalizeQuotes t = applySubsts t idxQuoteSubsts := by
  unfold Unllm.normalizeQuotes applySubsts idxQuoteSubsts
  rw [List.foldl_map]

theorem normalizeDashes_eq (t : List Nat) :
    Unllm.normalizeDashes t = applySubsts t idxDashSubsts := by
  unfold Unllm.normalizeDashes applySubsts idxDashSubsts
  rw [List.foldl_map]

theorem normalizeEllipsis_eq (t : List Nat) :
    Unllm.normalizeEllipsis t = applySubsts t idxEllipsisSubsts := rfl

theorem removeInvisibleChars_eq (t : List Nat) :
    Unllm.removeInvisibleChars t =
      applySubsts (t.filter (fun c => !(Unllm.isVariationSelector c)))
        idxInvisSubsts := by
  unfold Unllm.removeInvisibleChars applySubsts idxInvisSubsts
  rw [List.foldl_map]

theorem removeICEE_eq_of_no_emoji {t : List Nat}
    (h : Unllm.containsEmoji t = false) :
    Unllm.removeInvisibleCharsExceptEmoji t =
      applySubsts (t.filter (fun c => !(Unllm.isVariationSelector c)))
        idxInvisSubsts := by
  unfold Unllm.removeInvisibleCharsExceptEmoji
  rw [h]
  exact removeInvisibleChars_eq t

theorem removeICEE_eq_of_emoji {t : List Nat}
    (h : Unllm.containsEmoji t = true) :
    Unllm.removeInvisibleCharsExceptEmoji t =
      applySubsts t idxInvisNoZwjSubsts := by
  unfold Unllm.removeInvisibleCharsExceptEmoji
  rw [h]
  unfold applySubsts idxInvisNoZwjSubsts
  rw [List.foldl_map]
  rfl

/-- Conditional application of a transformation, the shape of the optional
stages of the sanitize pipeline. -/
def applyIf (b : Bool) (f : List Nat → List Nat) (t : List Nat) : List Nat :=
  if b then f t else t

theorem ite_fun_apply (b : Bool) (f : List Nat → List Nat) (x : List Nat) :
    (if b then f else fun t => t) x = applyIf b f x := by
  cases b <;> rfl

/-- The sanitize pipeline written as nested stage applications. -/
theorem sanitize_eq (s : List Nat) (o : Unllm.CleanOptions) :
    Unllm.sanitize s o =
      (let opts := Unllm.resolveOptions o
      applyIf opts.trim trimJs
        (applyIf opts.collapseWhitespace
          (fun t => Unllm.collapseWhitespace t opts.preserveLineBreaks
            opts.preserveTabs)
          (Unllm.filterChars
            (applyIf opts.normalizeEllipsis Unllm.normalizeEllipsis
              (applyIf opts.normalizeDashes Unllm.normalizeDashes
                (applyIf opts.normalizeQuotes Unllm.normalizeQuotes
                  (applyIf opts.normalizeSpaces Unllm.normalizeSpaces
                    (Unllm.removeInvisibleCharsExceptEmoji s)))))
            opts.preserveLineBreaks opts.preserveTabs))) := by
  unfold Unllm.sanitize
  simp only [List.foldl_cons, List.foldl_nil, ite_fun_apply]

theorem collapseWhitespace_eq (t : List Nat) (plb pt : Bool) :
    Unllm.collapseWhitespace t plb pt = collapseRuns (Unllm.wsClass plb pt) t := by
  cases plb <;> cases pt <;> rfl

def v0InvisSubsts : List (Nat × List Nat) :=
  UnllmV0.INVISIBLE_CHARS.map (fun c => (c, ([] : List Nat)))

def v0SpaceSubsts : List (Nat × List Nat) :=
  UnllmV0.UNICODE_SPACES.map (fun c => (c, [32]))

/-- The substitution list that the clean of src/unnamed/part_000 applies,
as a function of the resolved options and the emoji-presence flag. -/
def v0Substs (opts : UnllmV0.RequiredCleanOptions) (hasEmojis : Bool) :
    List (Nat × List Nat) :=
  (if opts.invisible then v0InvisSubsts else []) ++
    ((if opts.invisible && !hasEmojis then [(0x200D, [])] else []) ++
      ((if opts.spaces then v0SpaceSubsts else []) ++
        ((if opts.dashes then UnllmV0.DASH_MAP else []) ++
          (if opts.ellipsis then [(0x2026, [0x2E, 0x2E, 0x2E])] else []))))

theorem foldl_skip_zwj (keys : List Nat) (t : List Nat) (h : Bool)
    (hk : ∀ c ∈ keys, c ≠ 0x200D) :
    keys.foldl
        (fun result code =>
          if code = 0x200D && h then result else replaceAllChar result code [])
        t =
      applySubsts t (keys.map (fun c => (c, []))) := by
  induction keys generalizing t with
  | nil => rfl
  | cons a keys ih =>
      rw [List.foldl_cons, List.map_cons, applySubsts_cons]
      have ha : a ≠ 0x200D := hk a (List.mem_cons_self a keys)
      rw [if_neg (by simp [ha])]
      exact ih (replaceAllChar t a []) (fun c hc => hk c (List.mem_cons_of_mem a hc))

theorem v0_invis_fold_eq (t : List Nat) (h : Bool) :
    UnllmV0.INVISIBLE_CHARS.foldl
        (fun result code =>
          if code = 0x200D && h then result else replaceAllChar result code [])
        t =
      applySubsts t v0InvisSubsts :=
  foldl_skip_zwj UnllmV0.INVISIBLE_CHARS t h (by decide)

theorem v0_spaces_fold_eq (t : List Nat) :
    UnllmV0.UNICODE_SPACES.foldl
        (fun result space => replaceAllChar result space [32]) t =
      applySubsts t v0SpaceSubsts := by
  unfold applySubsts v0SpaceSubsts
  rw [List.foldl_map]

theorem v0_r1_eq (t : List Nat) (b h : Bool) :
    (if b then
      (if !h then
        replaceAllChar
          (UnllmV0.INVISIBLE_CHARS.foldl
            (fun result code =>
              if code = 0x200D && h then result
              else replaceAllChar result code []) t)
          0x200D []
      else
        UnllmV0.INVISIBLE_CHARS.foldl
          (fun result code =>
            if code = 0x200D && h then result
            else replaceAllChar result code []) t)
    else t) =
      applySubsts (applySubsts t (if b then v0InvisSubsts else []))
        (if b && !h then [(0x200D, [])] else []) := by
  cases b with
  | false => rfl
  | true =>
      cases h with
      | false =>
          rw [v0_invis_fold_eq t false]
          simp [applySubsts_cons, applySubsts_nil]
      | true =>
          rw [v0_invis_fold_eq t true]
          simp [applySubsts_cons, applySubsts_nil]

theorem v0_r2_eq (t : List Nat) (b : Bool) :
    (if b then
      UnllmV0.UNICODE_SPACES.foldl
        (fun result space => replaceAllChar result space [32]) t
    else t) =
      applySubsts t (if b then v0SpaceSubsts else []) := by
  cases b with
  | false => rfl
  | true => exact v0_spaces_fold_eq t

theorem v0_r3_eq (t : List Nat) (b : Bool) :
    (if b then
      UnllmV0.DASH_MAP.foldl (fun result p => replaceAllChar result p.1 p.2) t
    else t) =
      applySubsts t (if b then UnllmV0.DASH_MAP else []) := by
  cases b <;> rfl

theorem v0_r4_eq (t : List Nat) (b : Bool) :
    (if b then replaceAllChar t 0x2026 [0x2E, 0x2E, 0x2E] else t) =
      applySubsts t (if b then [(0x2026, [0x2E, 0x2E, 0x2E])] else []) := by
  cases b <;> rfl

theorem v0_clean_eq (s : List Nat) (o : UnllmV0.CleanOptions) :
    UnllmV0.clean s o =
      applySubsts s
        (v0Substs (UnllmV0.resolveOptions o) (UnllmV0.containsEmoji s)) := by
  unfold UnllmV0.clean
  dsimp only []
  rw [v0_r1_eq, v0_r2_eq, v0_r3_eq, v0_r4_eq]
  unfold v0Substs
  rw [applySubsts_append, applySubsts_append, applySubsts_append,
    applySubsts_append]

/-! ## Character classes drawn from the classification tables -/

/-- A quote-variant character: a key of the single- or double-quote map of
src/index.ts (curly and angled single and double quotes). -/
def isQuoteVariantChar (c : Nat) : Bool :=
  (Unllm.SINGLE_QUOTE_MAP ++ Unllm.DOUBLE_QUOTE_MAP).any (fun p => p.1 == c)

/-- A character recognized by some classification table of
src/unnamed/part_000: emoji (including modifiers), invisible table, the
zero-width joiner, space table, dash table or the ellipsis. -/
def recognizedV0 (c : Nat) : Bool :=
  UnllmV0.isEmoji c || UnllmV0.INVISIBLE_CHARS.contains c || c == 0x200D ||
  UnllmV0.UNICODE_SPACES.contains c ||
  (UnllmV0.DASH_MAP.map Prod.fst).contains c || c == 0x2026

/-- A character matching no classification table of src/unnamed/part_000. -/
def unrecognizedV0 (c : Nat) : Bool := !(recognizedV0 c)

/-- A character recognized by some classification table of src/index.ts. -/
def recognizedIdx (c : Nat) : Bool :=
  Unllm.isEmoji c || Unllm.INVISIBLE_CHARS.contains c ||
  Unllm.UNICODE_SPACES.contains c || isQuoteVariantChar c ||
  (Unllm.DASH_MAP.map Prod.fst).contains c || c == 0x2026 ||
  Unllm.isVariationSelector c

/-- A character matching no classification table of src/index.ts. -/
def unrecognizedIdx (c : Nat) : Bool := !(recognizedIdx c)

/-- The control-and-invisible category of src/unnamed/part_000: the
invisible table plus the zero-width joiner. -/
def invisClassV0 (c : Nat) : Bool :=
  UnllmV0.INVISIBLE_CHARS.contains c || c == 0x200D

/-- The space-variant category of src/unnamed/part_000. -/
def spaceClassV0 (c : Nat) : Bool := UnllmV0.UNICODE_SPACES.contains c

/-- The dash-variant category of src/unnamed/part_000 (including the soft
hyphen). -/
def dashClassV0 (c : Nat) : Bool := (UnllmV0.DASH_MAP.map Prod.fst).contains c

/-- The ellipsis category. -/
def ellipsisClassV0 (c : Nat) : Bool := c == 0x2026

theorem mem_ite_seg {α : Type} {p : α} {b : Bool} {seg : List α}
    (h : p ∈ (if b then seg else [])) : p ∈ seg := by
  cases b with
  | false => cases h
  | true => exact h

/-- Membership in the substitution list splits into the five segments. -/
theorem mem_v0Substs {p : Nat × List Nat} {opts : UnllmV0.RequiredCleanOptions}
    {h : Bool} (hp : p ∈ v0Substs opts h) :
    p ∈ v0InvisSubsts ∨ p = (0x200D, []) ∨ p ∈ v0SpaceSubsts ∨
      p ∈ UnllmV0.DASH_MAP ∨ p = (0x2026, [0x2E, 0x2E, 0x2E]) := by
  unfold v0Substs at hp
  rcases List.mem_append.mp hp with h1 | h1
  · exact Or.inl (mem_ite_seg h1)
  rcases List.mem_append.mp h1 with h2 | h2
  · exact Or.inr (Or.inl (List.mem_singleton.mp (mem_ite_seg h2)))
  rcases List.mem_append.mp h2 with h3 | h3
  · exact Or.inr (Or.inr (Or.inl (mem_ite_seg h3)))
  rcases List.mem_append.mp h3 with h4 | h4
  · exact Or.inr (Or.inr (Or.inr (Or.inl (mem_ite_seg h4))))
  · exact Or.inr (Or.inr (Or.inr (Or.inr
      (List.mem_singleton.mp (mem_ite_seg h4)))))

theorem v0Substs_key_recognized {p : Nat × List Nat}
    {opts : UnllmV0.RequiredCleanOptions} {h : Bool}
    (hp : p ∈ v0Substs opts h) : recognizedV0 p.1 = true := by
  rcases mem_v0Substs hp with h1 | h1 | h1 | h1 | h1
  · exact (by decide :
      ∀ q ∈ v0InvisSubsts, recognizedV0 q.1 = true) p h1
  · rw [h1]; decide
  · exact (by decide :
      ∀ q ∈ v0SpaceSubsts, recognizedV0 q.1 = true) p h1
  · exact (by decide :
      ∀ q ∈ UnllmV0.DASH_MAP, recognizedV0 q.1 = true) p h1
  · rw [h1]; decide

theorem v0Substs_rep {p : Nat × List Nat}
    {opts : UnllmV0.RequiredCleanOptions} {h : Bool}
    (hp : p ∈ v0Substs opts h) :
    ∀ c ∈ p.2, c = 32 ∨ c = 0x2D ∨ c = 0x2E := by
  rcases mem_v0Substs hp with h1 | h1 | h1 | h1 | h1
  · exact (by decide :
      ∀ q ∈ v0InvisSubsts, ∀ c ∈ q.2, c = 32 ∨ c = 0x2D ∨ c = 0x2E) p h1
  · rw [h1]; intro c hc; cases hc
  · exact (by decide :
      ∀ q ∈ v0SpaceSubsts, ∀ c ∈ q.2, c = 32 ∨ c = 0x2D ∨ c = 0x2E) p h1
  · exact (by decide :
      ∀ q ∈ UnllmV0.DASH_MAP, ∀ c ∈ q.2, c = 32 ∨ c = 0x2D ∨ c = 0x2E) p h1
  · rw [h1]
    intro c hc
    rcases List.mem_cons.mp hc with h2 | h2
    · exact Or.inr (Or.inr h2)
    rcases List.mem_cons.mp h2 with h3 | h3
    · exact Or.inr (Or.inr h3)
    rcases List.mem_cons.mp h3 with h4 | h4
    · exact Or.inr (Or.inr h4)
    · cases h4

/-! ## Characterization of the part_000 classifier -/

theorem needsCleaning_eq (c : Nat) (opts : UnllmV0.RequiredCleanOptions) :
    UnllmV0.needsCleaning c opts =
      (!(UnllmV0.isEmoji c) &&
        ((opts.invisible && invisClassV0 c) ||
          (opts.spaces && spaceClassV0 c) ||
          (opts.dashes && dashClassV0 c) ||
          (opts.ellipsis && ellipsisClassV0 c))) := by
  unfold UnllmV0.needsCleaning invisClassV0 spaceClassV0 dashClassV0
    ellipsisClassV0
  split_ifs with h1 h2 h3 h4 h5 h6 <;> simp_all

theorem needsCleaning_recognized {c : Nat}
    {opts : UnllmV0.RequiredCleanOptions}
    (h : UnllmV0.needsCleaning c opts = true) : recognizedV0 c = true := by
  rw [needsCleaning_eq] at h
  simp only [Bool.and_eq_true] at h
  rcases h with ⟨_, h2⟩
  unfold invisClassV0 spaceClassV0 dashClassV0 ellipsisClassV0 at h2
  unfold recognizedV0
  simp only [Bool.or_eq_true, Bool.and_eq_true] at h2 ⊢
  tauto

theorem mem_v0_inspect {i : UnllmV0.Issue} {s : List Nat}
    {o : UnllmV0.CleanOptions} (h : i ∈ UnllmV0.inspect s o) :
    UnllmV0.needsCleaning i.char (UnllmV0.resolveOptions o) = true := by
  unfold UnllmV0.inspect at h
  dsimp only [] at h
  rcases List.mem_map.mp h with ⟨p, hp, hpi⟩
  have h2 := (List.mem_filter.mp hp).2
  rw [← hpi]
  exact h2

theorem quoteVariant_cases {c : Nat} (h : isQuoteVariantChar c = true) :
    c ∈ (Unllm.SINGLE_QUOTE_MAP ++ Unllm.DOUBLE_QUOTE_MAP).map Prod.fst := by
  unfold isQuoteVariantChar at h
  rcases List.any_eq_true.mp h with ⟨p, hp, hpc⟩
  exact List.mem_map.mpr ⟨p, hp, by simpa using hpc⟩

theorem recognizedV0_not_quote {c : Nat} (h : recognizedV0 c = true) :
    isQuoteVariantChar c = false := by
  cases hq : isQuoteVariantChar c with
  | false => rfl
  | true =>
      have hmem := quoteVariant_cases hq
      have hfalse := (by decide :
        ∀ d ∈ (Unllm.SINGLE_QUOTE_MAP ++ Unllm.DOUBLE_QUOTE_MAP).map Prod.fst,
          recognizedV0 d = false) c hmem
      rw [hfalse] at h
      cases h

/-- Membership in the substitution list, retaining which option enabled the
segment. -/
theorem mem_v0Substs_cond {p : Nat × List Nat}
    {opts : UnllmV0.RequiredCleanOptions} {h : Bool}
    (hp : p ∈ v0Substs opts h) :
    (opts.invisible = true ∧ p ∈ v0InvisSubsts) ∨
      (opts.invisible = true ∧ (!h) = true ∧ p = (0x200D, [])) ∨
      (opts.spaces = true ∧ p ∈ v0SpaceSubsts) ∨
      (opts.dashes = true ∧ p ∈ UnllmV0.DASH_MAP) ∨
      (opts.ellipsis = true ∧ p = (0x2026, [0x2E, 0x2E, 0x2E])) := by
  have hseg : ∀ {b : Bool} {seg : List (Nat × List Nat)},
      p ∈ (if b then seg else []) → b = true ∧ p ∈ seg := by
    intro b seg hmem
    cases b with
    | false => cases hmem
    | true => exact ⟨rfl, hmem⟩
  unfold v0Substs at hp
  rcases List.mem_append.mp hp with h1 | h1
  · exact Or.inl (hseg h1)
  rcases List.mem_append.mp h1 with h2 | h2
  · rcases hseg h2 with ⟨hb, hm⟩
    have hb2 : opts.invisible = true ∧ (!h) = true := by
      simpa only [Bool.and_eq_true] using hb
    exact Or.inr (Or.inl ⟨hb2.1, hb2.2, List.mem_singleton.mp hm⟩)
  rcases List.mem_append.mp h2 with h3 | h3
  · exact Or.inr (Or.inr (Or.inl (hseg h3)))
  rcases List.mem_append.mp h3 with h4 | h4
  · exact Or.inr (Or.inr (Or.inr (Or.inl (hseg h4))))
  · rcases hseg h4 with ⟨hb, hm⟩
    exact Or.inr (Or.inr (Or.inr (Or.inr ⟨hb, List.mem_singleton.mp hm⟩)))

/-! ## Class membership helpers -/

theorem invisClassV0_mem {c : Nat} (h : invisClassV0 c = true) :
    c ∈ UnllmV0.INVISIBLE_CHARS ∨ c = 0x200D := by
  unfold invisClassV0 at h
  simp only [Bool.or_eq_true] at h
  rcases h with h | h
  · exact Or.inl (List.mem_of_elem_eq_true h)
  · exact Or.inr (by simpa using h)

theorem spaceClassV0_mem {c : Nat} (h : spaceClassV0 c = true) :
    c ∈ UnllmV0.UNICODE_SPACES :=
  List.mem_of_elem_eq_true h

theorem dashClassV0_mem {c : Nat} (h : dashClassV0 c = true) :
    c ∈ UnllmV0.DASH_MAP.map Prod.fst :=
  List.mem_of_elem_eq_true h

theorem ellipsisClassV0_eq {c : Nat} (h : ellipsisClassV0 c = true) :
    c = 0x2026 := by
  simpa [ellipsisClassV0] using h

/-- Filter preservation through the clean of src/unnamed/part_000, for any
character class avoided by every active substitution key and by every
replacement character. -/
theorem v0_gating_filter {X : Nat → Bool} {s : List Nat}
    {o : UnllmV0.CleanOptions}
    (hkeys : ∀ p ∈ v0Substs (UnllmV0.resolveOptions o)
      (UnllmV0.containsEmoji s), X p.1 = false)
    (h32 : X 32 = false) (h2D : X 0x2D = false) (h2E : X 0x2E = false) :
    (UnllmV0.clean s o).filter X = s.filter X := by
  rw [v0_clean_eq]
  refine filter_applySubsts (fun p hp => ⟨hkeys p hp, fun c hc => ?_⟩)
  rcases v0Substs_rep hp c hc with h | h | h
  · rw [h]; exact h32
  · rw [h]; exact h2D
  · rw [h]; exact h2E

/-- C1 counterexample: under src/index.ts, the CJK character U+4F60 matches
no classification table, yet clean with the default options removes it. -/
theorem c1_counterexample :
    unrecognizedIdx 0x4F60 = true ∧ Unllm.clean [0x4F60] noOpts = [] := by
  constructor
  · decide
  · decide

/-- C1 (amended): under the clean of src/unnamed/part_000, for every input
string and every options record, the subsequence of characters that match
no classification table appears unchanged, in original order, in the
output. -/
theorem c1_unrecognized_preserved (s : List Nat) (o : UnllmV0.CleanOptions) :
    List.Sublist (s.filter unrecognizedV0) (UnllmV0.clean s o) := by
  rw [v0_clean_eq]
  have hkeys : ∀ p ∈ v0Substs (UnllmV0.resolveOptions o)
      (UnllmV0.containsEmoji s), unrecognizedV0 p.1 = false := by
    intro p hp
    unfold unrecognizedV0
    rw [v0Substs_key_recognized hp]
    rfl
  exact (sublist_filter_applySubsts hkeys).trans (List.filter_sublist _)

/-- C6 counterexample: under the default configuration of src/index.ts the
left single quotation mark is normalized to an ASCII apostrophe rather than
kept verbatim, and inspect flags a string of only U+2018 and U+2019 with
two issues rather than zero. -/
theorem c6_counterexample :
    Unllm.clean [0x2018] noOpts = [0x27] ∧
      (Unllm.inspect [0x2018, 0x2019]).issueCount = 2 := by
  constructor
  · decide
  · decide

/-- C6 (amended): the clean of src/unnamed/part_000 keeps every
quote-variant character verbatim under every options record, and its
inspect never records an issue for a quote variant. -/
theorem c6_quotes_untouched (s : List Nat) (o : UnllmV0.CleanOptions) :
    (UnllmV0.clean s o).filter isQuoteVariantChar =
        s.filter isQuoteVariantChar ∧
      (UnllmV0.inspect s o).filter (fun i => isQuoteVariantChar i.char) = [] := by
  constructor
  · refine v0_gating_filter (fun p hp => ?_) (by decide) (by decide) (by decide)
    exact recognizedV0_not_quote (v0Substs_key_recognized hp)
  · refine List.filter_eq_nil_iff.mpr (fun i hi => ?_)
    have h1 := needsCleaning_recognized (mem_v0_inspect hi)
    simp [recognizedV0_not_quote h1]

/-- All four categories disabled, for the category-gating witness. -/
def v0AllOff : UnllmV0.CleanOptions :=
  ⟨some false, some false, some false, some false⟩

/-- C2 (amended): gating in src/unnamed/part_000.  For every string and
options record, a disabled category contributes no issues to inspect, and
clean leaves every scalar value of that category unchanged (the
subsequence of such characters in the output equals the one in the
input). -/
theorem c2_category_gating (s : List Nat) (o : UnllmV0.CleanOptions) :
    ((UnllmV0.resolveOptions o).invisible = false →
      (UnllmV0.inspect s o).filter (fun i => invisClassV0 i.char) = [] ∧
        (UnllmV0.clean s o).filter invisClassV0 = s.filter invisClassV0) ∧
    ((UnllmV0.resolveOptions o).spaces = false →
      (UnllmV0.inspect s o).filter (fun i => spaceClassV0 i.char) = [] ∧
        (UnllmV0.clean s o).filter spaceClassV0 = s.filter spaceClassV0) ∧
    ((UnllmV0.resolveOptions o).dashes = false →
      (UnllmV0.inspect s o).filter (fun i => dashClassV0 i.char) = [] ∧
        (UnllmV0.clean s o).filter dashClassV0 = s.filter dashClassV0) ∧
    ((UnllmV0.resolveOptions o).ellipsis = false →
      (UnllmV0.inspect s o).filter (fun i => ellipsisClassV0 i.char) = [] ∧
        (UnllmV0.clean s o).filter ellipsisClassV0 = s.filter ellipsisClassV0) := by
  have hflag : ∀ (i : UnllmV0.Issue), i ∈ UnllmV0.inspect s o →
      (!(UnllmV0.isEmoji i.char)) = true ∧
        (((UnllmV0.resolveOptions o).invisible = true ∧
            invisClassV0 i.char = true) ∨
          ((UnllmV0.resolveOptions o).spaces = true ∧
            spaceClassV0 i.char = true) ∨
          ((UnllmV0.resolveOptions o).dashes = true ∧
            dashClassV0 i.char = true) ∨
          ((UnllmV0.resolveOptions o).ellipsis = true ∧
            ellipsisClassV0 i.char = true)) := by
    intro i hi
    have h := mem_v0_inspect hi
    rw [needsCleaning_eq] at h
    simp only [Bool.and_eq_true, Bool.or_eq_true] at h
    exact ⟨h.1, by tauto⟩
  refine ⟨fun hoff => ⟨?_, ?_⟩, fun hoff => ⟨?_, ?_⟩, fun hoff => ⟨?_, ?_⟩,
    fun hoff => ⟨?_, ?_⟩⟩
  · refine List.filter_eq_nil_iff.mpr (fun i hi hX => ?_)
    rcases (hflag i hi).2 with ⟨hb, _⟩ | ⟨_, hc⟩ | ⟨_, hc⟩ | ⟨_, hc⟩
    · rw [hoff] at hb; cases hb
    · have hd := (by decide : ∀ d ∈ UnllmV0.UNICODE_SPACES,
        invisClassV0 d = false) _ (spaceClassV0_mem hc)
      rw [hd] at hX; cases hX
    · have hd := (by decide : ∀ d ∈ UnllmV0.DASH_MAP.map Prod.fst,
        invisClassV0 d = false) _ (dashClassV0_mem hc)
      rw [hd] at hX; cases hX
    · rw [ellipsisClassV0_eq hc] at hX
      exact absurd hX (by decide)
  · refine v0_gating_filter (fun p hp => ?_) (by decide) (by decide) (by decide)
    rcases mem_v0Substs_cond hp with ⟨hb, _⟩ | ⟨hb, _⟩ | ⟨_, hm⟩ | ⟨_, hm⟩ |
      ⟨_, hm⟩
    · rw [hoff] at hb; cases hb
    · rw [hoff] at hb; cases hb
    · exact (by decide : ∀ q ∈ v0SpaceSubsts, invisClassV0 q.1 = false) p hm
    · exact (by decide : ∀ q ∈ UnllmV0.DASH_MAP, invisClassV0 q.1 = false) p hm
    · rw [hm]; decide
  · refine List.filter_eq_nil_iff.mpr (fun i hi hX => ?_)
    rcases (hflag i hi).2 with ⟨_, hc⟩ | ⟨hb, _⟩ | ⟨_, hc⟩ | ⟨_, hc⟩
    · rcases invisClassV0_mem hc with hm | hm
      · have hd := (by decide : ∀ d ∈ UnllmV0.INVISIBLE_CHARS,
          spaceClassV0 d = false) _ hm
        rw [hd] at hX; cases hX
      · rw [hm] at hX
        exact absurd hX (by decide)
    · rw [hoff] at hb; cases hb
    · have hd := (by decide : ∀ d ∈ UnllmV0.DASH_MAP.map Prod.fst,
        spaceClassV0 d = false) _ (dashClassV0_mem hc)
      rw [hd] at hX; cases hX
    · rw [ellipsisClassV0_eq hc] at hX
      exact absurd hX (by decide)
  · refine v0_gating_filter (fun p hp => ?_) (by decide) (by decide) (by decide)
    rcases mem_v0Substs_cond hp with ⟨_, hm⟩ | ⟨_, _, hm⟩ | ⟨hb, _⟩ | ⟨_, hm⟩ |
      ⟨_, hm⟩
    · exact (by decide : ∀ q ∈ v0InvisSubsts, spaceClassV0 q.1 = false) p hm
    · rw [hm]; decide
    · rw [hoff] at hb; cases hb
    · exact (by decide : ∀ q ∈ UnllmV0.DASH_MAP, spaceClassV0 q.1 = false) p hm
    · rw [hm]; decide
  · refine List.filter_eq_nil_iff.mpr (fun i hi hX => ?_)
    rcases (hflag i hi).2 with ⟨_, hc⟩ | ⟨_, hc⟩ | ⟨hb, _⟩ | ⟨_, hc⟩
    · rcases invisClassV0_mem hc with hm | hm
      · have hd := (by decide : ∀ d ∈ UnllmV0.INVISIBLE_CHARS,
          dashClassV0 d = false) _ hm
        rw [hd] at hX; cases hX
      · rw [hm] at hX
        exact absurd hX (by decide)
    · have hd := (by decide : ∀ d ∈ UnllmV0.UNICODE_SPACES,
        dashClassV0 d = false) _ (spaceClassV0_mem hc)
      rw [hd] at hX; cases hX
    · rw [hoff] at hb; cases hb
    · rw [ellipsisClassV0_eq hc] at hX
      exact absurd hX (by decide)
  · refine v0_gating_filter (fun p hp => ?_) (by decide) (by decide) (by decide)
    rcases mem_v0Substs_cond hp with ⟨_, hm⟩ | ⟨_, _, hm⟩ | ⟨_, hm⟩ | ⟨hb, _⟩ |
      ⟨_, hm⟩
    · exact (by decide : ∀ q ∈ v0InvisSubsts, dashClassV0 q.1 = false) p hm
    · rw [hm]; decide
    · exact (by decide : ∀ q ∈ v0SpaceSubsts, dashClassV0 q.1 = false) p hm
    · rw [hoff] at hb; cases hb
    · rw [hm]; decide
  · refine List.filter_eq_nil_iff.mpr (fun i hi hX => ?_)
    rcases (hflag i hi).2 with ⟨_, hc⟩ | ⟨_, hc⟩ | ⟨_, hc⟩ | ⟨hb, _⟩
    · rcases invisClassV0_mem hc with hm | hm
      · have hd := (by decide : ∀ d ∈ UnllmV0.INVISIBLE_CHARS,
          ellipsisClassV0 d = false) _ hm
        rw [hd] at hX; cases hX
      · rw [hm] at hX
        exact absurd hX (by decide)
    · have hd := (by decide : ∀ d ∈ UnllmV0.UNICODE_SPACES,
        ellipsisClassV0 d = false) _ (spaceClassV0_mem hc)
      rw [hd] at hX; cases hX
    · have hd := (by decide : ∀ d ∈ UnllmV0.DASH_MAP.map Prod.fst,
        ellipsisClassV0 d = false) _ (dashClassV0_mem hc)
      rw [hd] at hX; cases hX
    · rw [hoff] at hb; cases hb
  · refine v0_gating_filter (fun p hp => ?_) (by decide) (by decide) (by decide)
    rcases mem_v0Substs_cond hp with ⟨_, hm⟩ | ⟨_, _, hm⟩ | ⟨_, hm⟩ | ⟨_, hm⟩ |
      ⟨hb, _⟩
    · exact (by decide : ∀ q ∈ v0InvisSubsts, ellipsisClassV0 q.1 = false) p hm
    · rw [hm]; decide
    · exact (by decide : ∀ q ∈ v0SpaceSubsts, ellipsisClassV0 q.1 = false) p hm
    · exact (by decide : ∀ q ∈ UnllmV0.DASH_MAP, ellipsisClassV0 q.1 = false)
        p hm
    · rw [hoff] at hb; cases hb

/-- C2 witness: at a concrete string holding one character of each
category, with every category disabled, all eight gating conclusions
hold. -/
theorem c2_category_gating_witness :
    ((UnllmV0.inspect [0x200B, 0xA0, 0x2013, 0x2026] v0AllOff).filter
        (fun i => invisClassV0 i.char) = [] ∧
      (UnllmV0.clean [0x200B, 0xA0, 0x2013, 0x2026] v0AllOff).filter
          invisClassV0 =
        ([0x200B, 0xA0, 0x2013, 0x2026] : List Nat).filter invisClassV0) ∧
    ((UnllmV0.inspect [0x200B, 0xA0, 0x2013, 0x2026] v0AllOff).filter
        (fun i => spaceClassV0 i.char) = [] ∧
      (UnllmV0.clean [0x200B, 0xA0, 0x2013, 0x2026] v0AllOff).filter
          spaceClassV0 =
        ([0x200B, 0xA0, 0x2013, 0x2026] : List Nat).filter spaceClassV0) ∧
    ((UnllmV0.inspect [0x200B, 0xA0, 0x2013, 0x2026] v0AllOff).filter
        (fun i => dashClassV0 i.char) = [] ∧
      (UnllmV0.clean [0x200B, 0xA0, 0x2013, 0x2026] v0AllOff).filter
          dashClassV0 =
        ([0x200B, 0xA0, 0x2013, 0x2026] : List Nat).filter dashClassV0) ∧
    ((UnllmV0.inspect [0x200B, 0xA0, 0x2013, 0x2026] v0AllOff).filter
        (fun i => ellipsisClassV0 i.char) = [] ∧
      (UnllmV0.clean [0x200B, 0xA0, 0x2013, 0x2026] v0AllOff).filter
          ellipsisClassV0 =
        ([0x200B, 0xA0, 0x2013, 0x2026] : List Nat).filter ellipsisClassV0) :=
  ⟨(c2_category_gating [0x200B, 0xA0, 0x2013, 0x2026] v0AllOff).1 (by decide),
   (c2_category_gating [0x200B, 0xA0, 0x2013, 0x2026] v0AllOff).2.1 (by decide),
   (c2_category_gating [0x200B, 0xA0, 0x2013, 0x2026] v0AllOff).2.2.1
     (by decide),
   (c2_category_gating [0x200B, 0xA0, 0x2013, 0x2026] v0AllOff).2.2.2
     (by decide)⟩

/-- C8: the claim fails in src/index.ts for preset names that collide with
Object.prototype members.  The guard !presets[preset] in cleanWith uses
JavaScript property access, which consults the prototype chain: the name
toString is not in the registry (presets yields none for it), yet
cleanWith raises no InvalidPreset error — for every input it silently
returns the text sanitized under the default options, exactly the default
fallback the specification rules out.  A name outside both the registry
and Object.prototype does raise the enumerating error independently of
the input text, and every registered name completes without error, so the
remainder of the claim holds. -/
theorem c8_prototype_preset_leak :
    Unllm.presets "toString" = none ∧
    (∀ text : List Nat, Unllm.cleanWith text "toString" =
        Except.ok (Unllm.sanitize text Unllm.emptyOptions)) ∧
    (∀ text : List Nat, Unllm.cleanWith text "bogus" =
        Except.error ("Unknown preset: " ++ "bogus" ++
          ". Available: strict, standard, lenient, llm")) ∧
    (∀ text : List Nat,
      Unllm.cleanWith text "strict" =
          Except.ok (Unllm.sanitize text Unllm.presetStrict) ∧
        Unllm.cleanWith text "standard" =
          Except.ok (Unllm.sanitize text Unllm.presetStandard) ∧
        Unllm.cleanWith text "lenient" =
          Except.ok (Unllm.sanitize text Unllm.presetLenient) ∧
        Unllm.cleanWith text "llm" =
          Except.ok (Unllm.sanitize text Unllm.presetLlm)) :=
  ⟨rfl, fun _ => rfl, fun _ => rfl, fun _ => ⟨rfl, rfl, rfl, rfl⟩⟩

/-- C9: the code and hex fields of an issue found by src/index.ts record
charCodeAt(0) of the character.  For the non-keyboard character U+1D54F
(outside the Basic Multilingual Plane) the recorded position is the
correct scalar-value index 1, but code is 0xD835 — the leading UTF-16
surrogate — and hex is U+D835, not the scalar value 0x1D54F. -/
theorem c9_astral_code_bug :
    (Unllm.findIssues [0x61, 0x1D54F]).map
        (fun i => (i.position, i.code, i.codeHex)) =
      [(1, 0xD835, "U+D835")] ∧ 0xD835 ≠ 0x1D54F := by
  constructor
  · decide
  · decide

/-- C10: cleaning with no options (the empty options record, the default
parameter value of clean) is the same as sanitizing under the standard
preset, which is exactly what cleanWith with the name standard returns. -/
theorem c10_default_equals_standard (text : List Nat) :
    Unllm.clean text noOpts = Unllm.sanitize text Unllm.presetStandard ∧
      Unllm.cleanWith text "standard" = Except.ok (Unllm.clean text noOpts) := by
  constructor
  · rfl
  · rfl

/-! ## Facts about the src/index.ts pipeline -/

theorem applyIf_true {b : Bool} {f : List Nat → List Nat} {t : List Nat}
    (h : b = true) : applyIf b f t = f t := by
  rw [applyIf, if_pos h]

theorem applyIf_false {b : Bool} {f : List Nat → List Nat} {t : List Nat}
    (h : b = false) : applyIf b f t = t := by
  rw [applyIf, h]
  rfl

theorem filterPred_of_isEmoji {c : Nat} (h : Unllm.isEmoji c = true)
    (b1 b2 : Bool) : Unllm.filterPred b1 b2 c = true := by
  unfold Unllm.filterPred
  simp [h]

theorem isKeyboardChar_of_filterPred {b1 b2 : Bool} {c : Nat}
    (h : Unllm.filterPred b1 b2 c = true) : Unllm.isKeyboardChar c = true := by
  unfold Unllm.filterPred at h
  unfold Unllm.isKeyboardChar
  simp only [Bool.or_eq_true, Bool.and_eq_true, decide_eq_true_eq] at h ⊢
  tauto

theorem isEmoji_not_jsWs {c : Nat} (h : Unllm.isEmoji c = true) :
    isJsWhitespace c = false := by
  cases hj : isJsWhitespace c with
  | false => rfl
  | true =>
      exfalso
      simp only [Unllm.isEmoji, Unllm.isActualEmoji, isJsWhitespace,
        Bool.or_eq_true, Bool.and_eq_true, decide_eq_true_eq] at h hj
      omega

theorem wsClass_imp_jsWs {b1 b2 : Bool} {c : Nat}
    (h : Unllm.wsClass b1 b2 c = true) : isJsWhitespace c = true := by
  cases hj : isJsWhitespace c with
  | true => rfl
  | false =>
      exfalso
      cases b1 <;> cases b2 <;>
        simp [Unllm.wsClass, isJsWhitespace] at h hj <;>
        omega

theorem isEmoji_not_wsClass {c : Nat} (h : Unllm.isEmoji c = true)
    (b1 b2 : Bool) : Unllm.wsClass b1 b2 c = false := by
  cases hw : Unllm.wsClass b1 b2 c with
  | false => rfl
  | true =>
      have hj := wsClass_imp_jsWs hw
      rw [isEmoji_not_jsWs h] at hj
      cases hj

theorem filter_filter_eq {F X : Nat → Bool} {l : List Nat}
    (h : ∀ c, X c = true → F c = true) :
    (l.filter F).filter X = l.filter X := by
  induction l with
  | nil => rfl
  | cons a l ih =>
      by_cases hF : F a
      · rw [List.filter_cons_of_pos hF]
        simp only [List.filter_cons, ih]
      · rw [List.filter_cons_of_neg hF]
        have hX : X a = false := by
          cases hX : X a with
          | false => rfl
          | true => exact absurd (h a hX) hF
        rw [ih, List.filter_cons_of_neg (by simp [hX])]

/-- The four conditional normalization stages of sanitize. -/
def normStages (R : Unllm.RequiredCleanOptions) (t : List Nat) : List Nat :=
  applyIf R.normalizeEllipsis Unllm.normalizeEllipsis
    (applyIf R.normalizeDashes Unllm.normalizeDashes
      (applyIf R.normalizeQuotes Unllm.normalizeQuotes
        (applyIf R.normalizeSpaces Unllm.normalizeSpaces t)))

/-- The keyboard filter, optional whitespace collapsing and optional
trimming at the end of sanitize. -/
def postStages (R : Unllm.RequiredCleanOptions) (t : List Nat) : List Nat :=
  applyIf R.trim trimJs
    (applyIf R.collapseWhitespace
      (fun u => Unllm.collapseWhitespace u R.preserveLineBreaks R.preserveTabs)
      (Unllm.filterChars t R.preserveLineBreaks R.preserveTabs))

theorem sanitize_stages (s : List Nat) (o : Unllm.CleanOptions) :
    Unllm.sanitize s o =
      postStages (Unllm.resolveOptions o)
        (normStages (Unllm.resolveOptions o)
          (Unllm.removeInvisibleCharsExceptEmoji s)) := by
  rw [sanitize_eq]
  rfl

theorem mem_applyIf_of {c : Nat} {b : Bool} {f : List Nat → List Nat}
    {u : List Nat} (hf : c ∈ u → c ∈ f u) (hu : c ∈ u) :
    c ∈ applyIf b f u := by
  cases b with
  | false => rw [applyIf_false rfl]; exact hu
  | true => rw [applyIf_true rfl]; exact hf hu

/-- The four normalization segments with their substitution lists. -/
theorem normStages_segs (R : Unllm.RequiredCleanOptions) (t : List Nat) :
    normStages R t =
      applyIf R.normalizeEllipsis (fun u => applySubsts u idxEllipsisSubsts)
        (applyIf R.normalizeDashes (fun u => applySubsts u idxDashSubsts)
          (applyIf R.normalizeQuotes (fun u => applySubsts u idxQuoteSubsts)
            (applyIf R.normalizeSpaces (fun u => applySubsts u idxSpaceSubsts)
              t))) := by
  unfold normStages applyIf
  simp only [normalizeSpaces_eq, normalizeQuotes_eq, normalizeDashes_eq,
    normalizeEllipsis_eq]

theorem filter_applyIf (X : Nat → Bool) (b : Bool) (f : List Nat → List Nat)
    {u : List Nat} (hf : (f u).filter X = u.filter X) :
    (applyIf b f u).filter X = u.filter X := by
  cases b with
  | false => rw [applyIf_false rfl]
  | true => rw [applyIf_true rfl]; exact hf

theorem normStages_filter_emoji {X : Nat → Bool}
    (hX : ∀ c, X c = true → Unllm.isEmoji c = true)
    (R : Unllm.RequiredCleanOptions) (t : List Nat) :
    (normStages R t).filter X = t.filter X := by
  have hseg : ∀ (seg : List (Nat × List Nat)),
      (∀ p ∈ seg, Unllm.isEmoji p.1 = false ∧
        ∀ d ∈ p.2, Unllm.isEmoji d = false) →
      ∀ u : List Nat, (applySubsts u seg).filter X = u.filter X := by
    intro seg hs u
    refine filter_applySubsts (fun p hp => ⟨?_, fun c hc => ?_⟩)
    · cases hXp : X p.1 with
      | false => rfl
      | true =>
          have := hX _ hXp
          rw [(hs p hp).1] at this
          cases this
    · cases hXc : X c with
      | false => rfl
      | true =>
          have := hX _ hXc
          rw [(hs p hp).2 c hc] at this
          cases this
  rw [normStages_segs]
  rw [filter_applyIf X R.normalizeEllipsis
      (fun v => applySubsts v idxEllipsisSubsts)
      (hseg idxEllipsisSubsts (by decide) _),
    filter_applyIf X R.normalizeDashes (fun v => applySubsts v idxDashSubsts)
      (hseg idxDashSubsts (by decide) _),
    filter_applyIf X R.normalizeQuotes (fun v => applySubsts v idxQuoteSubsts)
      (hseg idxQuoteSubsts (by decide) _),
    filter_applyIf X R.normalizeSpaces (fun v => applySubsts v idxSpaceSubsts)
      (hseg idxSpaceSubsts (by decide) _)]

theorem normStages_mem_emoji {c : Nat} {R : Unllm.RequiredCleanOptions}
    {t : List Nat} (hc : c ∈ t) (he : Unllm.isEmoji c = true) :
    c ∈ normStages R t := by
  have hseg : ∀ (seg : List (Nat × List Nat)),
      (∀ p ∈ seg, Unllm.isEmoji p.1 = false) →
      ∀ u : List Nat, c ∈ u → c ∈ applySubsts u seg := by
    intro seg hs u hu
    refine mem_applySubsts hu (fun p hp heq => ?_)
    rw [heq] at he
    rw [hs p hp] at he
    cases he
  rw [normStages_segs]
  exact mem_applyIf_of (hseg idxEllipsisSubsts (by decide) _)
    (mem_applyIf_of (hseg idxDashSubsts (by decide) _)
      (mem_applyIf_of (hseg idxQuoteSubsts (by decide) _)
        (mem_applyIf_of (hseg idxSpaceSubsts (by decide) _) hc)))

theorem normStages_all {P : Nat → Bool} {R : Unllm.RequiredCleanOptions}
    {t : List Nat} (hP : ∀ c ∈ t, P c = true)
    (hrep : ∀ c, (c = 32 ∨ c = 0x27 ∨ c = 0x22 ∨ c = 0x2D ∨ c = 0x2E) →
      P c = true) :
    ∀ c ∈ normStages R t, P c = true := by
  have hseg : ∀ (seg : List (Nat × List Nat)),
      (∀ p ∈ seg, ∀ d ∈ p.2,
        d = 32 ∨ d = 0x27 ∨ d = 0x22 ∨ d = 0x2D ∨ d = 0x2E) →
      ∀ u : List Nat, (∀ c ∈ u, P c = true) →
        ∀ c ∈ applySubsts u seg, P c = true := by
    intro seg hs u hu c hc
    rcases mem_of_mem_applySubsts hc with h | ⟨p, hp, hcp⟩
    · exact hu c h
    · exact hrep c (hs p hp c hcp)
  have happ : ∀ (b : Bool) (seg : List (Nat × List Nat)),
      (∀ p ∈ seg, ∀ d ∈ p.2,
        d = 32 ∨ d = 0x27 ∨ d = 0x22 ∨ d = 0x2D ∨ d = 0x2E) →
      ∀ u : List Nat, (∀ c ∈ u, P c = true) →
        ∀ c ∈ applyIf b (fun v => applySubsts v seg) u, P c = true := by
    intro b seg hs u hu
    cases b with
    | false => rw [applyIf_false rfl]; exact hu
    | true => rw [applyIf_true rfl]; exact hseg seg hs u hu
  rw [normStages_segs]
  exact happ _ idxEllipsisSubsts (by decide) _
    (happ _ idxDashSubsts (by decide) _
      (happ _ idxQuoteSubsts (by decide) _
        (happ _ idxSpaceSubsts (by decide) _ hP)))

theorem normStages_id {R : Unllm.RequiredCleanOptions} {t : List Nat}
    (hK : ∀ c ∈ t, Unllm.filterPred R.preserveLineBreaks R.preserveTabs c =
      true) :
    normStages R t = t := by
  have hseg : ∀ (seg : List (Nat × List Nat)),
      (∀ p ∈ seg, ∀ b1 b2, Unllm.filterPred b1 b2 p.1 = false) →
      applySubsts t seg = t := by
    intro seg hs
    refine applySubsts_eq_self (fun p hp hmem => ?_)
    have h1 := hK _ hmem
    rw [hs p hp R.preserveLineBreaks R.preserveTabs] at h1
    cases h1
  have happ : ∀ (b : Bool) (seg : List (Nat × List Nat)),
      (∀ p ∈ seg, ∀ b1 b2, Unllm.filterPred b1 b2 p.1 = false) →
      applyIf b (fun v => applySubsts v seg) t = t := by
    intro b seg hs
    cases b with
    | false => exact applyIf_false rfl
    | true => rw [applyIf_true rfl]; exact hseg seg hs
  rw [normStages_segs, happ _ idxSpaceSubsts (by decide),
    happ _ idxQuoteSubsts (by decide), happ _ idxDashSubsts (by decide),
    happ _ idxEllipsisSubsts (by decide)]

theorem mem_postStages_filterPred {R : Unllm.RequiredCleanOptions}
    {t : List Nat} {c : Nat} (hc : c ∈ postStages R t) :
    Unllm.filterPred R.preserveLineBreaks R.preserveTabs c = true := by
  unfold postStages at hc
  have hc2 : c ∈ applyIf R.collapseWhitespace
      (fun u => Unllm.collapseWhitespace u R.preserveLineBreaks
        R.preserveTabs)
      (Unllm.filterChars t R.preserveLineBreaks R.preserveTabs) := by
    cases htr : R.trim with
    | false => rw [applyIf_false htr] at hc; exact hc
    | true => rw [applyIf_true htr] at hc; exact mem_of_mem_trimJs hc
  have hc3 : c = 32 ∨
      c ∈ Unllm.filterChars t R.preserveLineBreaks R.preserveTabs := by
    cases hcw : R.collapseWhitespace with
    | false => rw [applyIf_false hcw] at hc2; exact Or.inr hc2
    | true =>
        rw [applyIf_true hcw, collapseWhitespace_eq] at hc2
        exact mem_of_mem_collapseAux hc2
  rcases hc3 with h | h
  · rw [h]
    exact (by decide : ∀ b1 b2, Unllm.filterPred b1 b2 32 = true) _ _
  · exact (List.mem_filter.mp h).2

theorem postStages_keyboard {R : Unllm.RequiredCleanOptions} {t : List Nat} :
    ∀ c ∈ postStages R t, Unllm.isKeyboardChar c = true :=
  fun _ hc => isKeyboardChar_of_filterPred (mem_postStages_filterPred hc)

theorem postStages_filter_emoji {X : Nat → Bool}
    (hX : ∀ c, X c = true → Unllm.isEmoji c = true)
    (R : Unllm.RequiredCleanOptions) (t : List Nat) :
    (postStages R t).filter X = t.filter X := by
  have hX32 : X 32 = false := by
    cases h32 : X 32 with
    | false => rfl
    | true => exact absurd (hX _ h32) (by decide)
  have hXws : ∀ c, X c = true →
      Unllm.wsClass R.preserveLineBreaks R.preserveTabs c = false :=
    fun c hc => isEmoji_not_wsClass (hX c hc) _ _
  have hXjs : ∀ c, isJsWhitespace c = true → X c = false := by
    intro c hc
    cases hXc : X c with
    | false => rfl
    | true =>
        rw [isEmoji_not_jsWs (hX c hXc)] at hc
        cases hc
  have hcol : ∀ u, (Unllm.collapseWhitespace u R.preserveLineBreaks
      R.preserveTabs).filter X = u.filter X := by
    intro u
    rw [collapseWhitespace_eq]
    exact filter_collapseAux hX32 hXws u false
  have h1 : (Unllm.filterChars t R.preserveLineBreaks
      R.preserveTabs).filter X = t.filter X :=
    filter_filter_eq (fun c hc => filterPred_of_isEmoji (hX c hc) _ _)
  unfold postStages
  rw [filter_applyIf X R.trim trimJs (filter_trimJs hXjs),
    filter_applyIf X R.collapseWhitespace
      (fun u => Unllm.collapseWhitespace u R.preserveLineBreaks
        R.preserveTabs)
      (hcol _),
    h1]

theorem postStages_mem_emoji {R : Unllm.RequiredCleanOptions} {t : List Nat}
    {c : Nat} (hc : c ∈ t) (he : Unllm.isEmoji c = true) :
    c ∈ postStages R t := by
  unfold postStages
  refine mem_applyIf_of (fun h => mem_trimJs h (isEmoji_not_jsWs he))
    (mem_applyIf_of (fun h => ?_) ?_)
  · rw [collapseWhitespace_eq]
    exact mem_collapseAux_of_neg h (isEmoji_not_wsClass he _ _) false
  · exact List.mem_filter.mpr ⟨hc, filterPred_of_isEmoji he _ _⟩

theorem postStages_all {P : Nat → Bool} {R : Unllm.RequiredCleanOptions}
    {t : List Nat} (hP : ∀ c ∈ t, P c = true) (h32 : P 32 = true) :
    ∀ c ∈ postStages R t, P c = true := by
  intro c hc
  unfold postStages at hc
  have hc2 : c ∈ applyIf R.collapseWhitespace
      (fun u => Unllm.collapseWhitespace u R.preserveLineBreaks
        R.preserveTabs)
      (Unllm.filterChars t R.preserveLineBreaks R.preserveTabs) := by
    cases htr : R.trim with
    | false => rw [applyIf_false htr] at hc; exact hc
    | true => rw [applyIf_true htr] at hc; exact mem_of_mem_trimJs hc
  have hc3 : c = 32 ∨
      c ∈ Unllm.filterChars t R.preserveLineBreaks R.preserveTabs := by
    cases hcw : R.collapseWhitespace with
    | false => rw [applyIf_false hcw] at hc2; exact Or.inr hc2
    | true =>
        rw [applyIf_true hcw, collapseWhitespace_eq] at hc2
        exact mem_of_mem_collapseAux hc2
  rcases hc3 with h | h
  · rw [h]; exact h32
  · exact hP c (List.mem_filter.mp h).1

theorem postStages_collNF {R : Unllm.RequiredCleanOptions} {t : List Nat}
    (hcw : R.collapseWhitespace = true) :
    CollNF (Unllm.wsClass R.preserveLineBreaks R.preserveTabs)
      (postStages R t) := by
  unfold postStages
  rw [applyIf_true hcw, collapseWhitespace_eq]
  cases R.trim with
  | false => rw [applyIf_false rfl]; exact collNF_collapseRuns _ _
  | true => rw [applyIf_true rfl]; exact collNF_trimJs (collNF_collapseRuns _ _)

theorem postStages_trim_id {R : Unllm.RequiredCleanOptions} {t : List Nat}
    (htr : R.trim = true) : trimJs (postStages R t) = postStages R t := by
  unfold postStages
  rw [applyIf_true htr]
  exact trimJs_idem _

theorem detect_nil {l : List Nat}
    (h : ∀ c ∈ l, Unllm.isKeyboardChar c = true) :
    Unllm.detectNonKeyboardChars l = [] := by
  unfold Unllm.detectNonKeyboardChars
  rw [List.filter_eq_nil_iff.mpr ?_]
  · rfl
  · intro p hp
    rcases List.mem_map.mp hp with ⟨q, hq, hqp⟩
    have hmem : q.2 ∈ l := List.snd_mem_of_mem_enum hq
    rw [← hqp]
    simp [h _ hmem]

/-- C7: for every string and every configuration, inspecting the output of
the clean of src/index.ts reports an issue count of zero (every character
that survives the pipeline is a keyboard character or an emoji, which
inspect never flags). -/
theorem c7_roundtrip_clean (s : List Nat) (o : Unllm.CleanOptions) :
    (Unllm.inspect (Unllm.clean s o)).issueCount = 0 := by
  have hkb : ∀ c ∈ Unllm.clean s o, Unllm.isKeyboardChar c = true := by
    unfold Unllm.clean
    rw [sanitize_stages]
    exact postStages_keyboard
  show (Unllm.detectNonKeyboardChars (Unllm.clean s o)).length = 0
  rw [detect_nil hkb]
  rfl

/-- C4: if the input contains a genuine emoji scalar value, the clean of
src/index.ts preserves, in order and unchanged, the full subsequence of
emoji characters and emoji modifiers (variation selectors, the zero-width
joiner and skin-tone modifiers), under every configuration. -/
theorem c4_emoji_invariance (s : List Nat) (o : Unllm.CleanOptions)
    (h : Unllm.containsEmoji s = true) :
    (Unllm.clean s o).filter Unllm.isEmoji = s.filter Unllm.isEmoji := by
  unfold Unllm.clean
  rw [sanitize_stages, postStages_filter_emoji (fun _ hc => hc) _ _,
    normStages_filter_emoji (fun _ hc => hc) _ _, removeICEE_eq_of_emoji h]
  exact filter_applySubsts (by decide)

/-- C4 witness: an emoji with a skin-tone modifier and a variation
selector survives the default clean unchanged. -/
theorem c4_emoji_invariance_witness :
    Unllm.containsEmoji [0x1F600, 0x1F3FB, 0xFE0F, 0x41] = true ∧
      (Unllm.clean [0x1F600, 0x1F3FB, 0xFE0F, 0x41] noOpts).filter
          Unllm.isEmoji =
        ([0x1F600, 0x1F3FB, 0xFE0F, 0x41] : List Nat).filter Unllm.isEmoji :=
  ⟨by decide, c4_emoji_invariance [0x1F600, 0x1F3FB, 0xFE0F, 0x41] noOpts
    (by decide)⟩

/-- C5: zero-width-joiner removal is a whole-string decision in both
implementations.  With invisible removal active (always active in
src/index.ts, the invisible toggle in src/unnamed/part_000), clean removes
every U+200D exactly when the string contains no genuine emoji, and keeps
every U+200D in place when it contains at least one. -/
theorem c5_zwj_whole_string (s : List Nat) (oV0 : UnllmV0.CleanOptions)
    (oIdx : Unllm.CleanOptions)
    (hinv : (UnllmV0.resolveOptions oV0).invisible = true) :
    (UnllmV0.clean s oV0).filter (fun c => c == 0x200D) =
        (if UnllmV0.containsEmoji s then
          s.filter (fun c => c == 0x200D)
        else []) ∧
      (Unllm.clean s oIdx).filter (fun c => c == 0x200D) =
        (if Unllm.containsEmoji s then
          s.filter (fun c => c == 0x200D)
        else []) := by
  constructor
  · rw [v0_clean_eq]
    cases hem : UnllmV0.containsEmoji s with
    | true =>
        rw [if_pos rfl]
        refine filter_applySubsts (fun p hp => ⟨?_, fun c hc => ?_⟩)
        · rcases mem_v0Substs_cond hp with ⟨_, hm⟩ | ⟨_, hnh, _⟩ | ⟨_, hm⟩ |
            ⟨_, hm⟩ | ⟨_, hm⟩
          · exact (by decide :
              ∀ q ∈ v0InvisSubsts, (q.1 == 0x200D) = false) p hm
          · simp at hnh
          · exact (by decide :
              ∀ q ∈ v0SpaceSubsts, (q.1 == 0x200D) = false) p hm
          · exact (by decide :
              ∀ q ∈ UnllmV0.DASH_MAP, (q.1 == 0x200D) = false) p hm
          · rw [hm]; decide
        · rcases v0Substs_rep hp c hc with h | h | h <;> (rw [h]; decide)
    | false =>
        rw [if_neg (by simp)]
        have hmem : ((0x200D, ([] : List Nat)) : Nat × List Nat) ∈
            v0Substs (UnllmV0.resolveOptions oV0) false := by
          unfold v0Substs
          rw [hinv]
          exact List.mem_append.mpr (Or.inr (List.mem_append.mpr
            (Or.inl (List.mem_singleton.mpr rfl))))
        have hnot : (0x200D : Nat) ∉
            applySubsts s (v0Substs (UnllmV0.resolveOptions oV0) false) := by
          refine not_mem_applySubsts_of_key (fun p hp hc => ?_)
            (List.mem_map.mpr ⟨(0x200D, []), hmem, rfl⟩)
          rcases v0Substs_rep hp _ hc with h | h | h <;> cases h
        refine List.filter_eq_nil_iff.mpr (fun a ha hba => ?_)
        have : a = 0x200D := by simpa using hba
        rw [this] at ha
        exact hnot ha
  · cases hem : Unllm.containsEmoji s with
    | true =>
        rw [if_pos rfl]
        have hX : ∀ c, (c == 0x200D) = true → Unllm.isEmoji c = true := by
          intro c hc
          have : c = 0x200D := by simpa using hc
          rw [this]
          decide
        unfold Unllm.clean
        rw [sanitize_stages, postStages_filter_emoji hX _ _,
          normStages_filter_emoji hX _ _, removeICEE_eq_of_emoji hem]
        exact filter_applySubsts (by decide)
    | false =>
        rw [if_neg (by simp)]
        have h1 : (0x200D : Nat) ∉ Unllm.removeInvisibleCharsExceptEmoji s := by
          rw [removeICEE_eq_of_no_emoji hem]
          exact not_mem_applySubsts_of_key (by decide) (by decide)
        have hP : ∀ c ∈ Unllm.removeInvisibleCharsExceptEmoji s,
            (!(c == 0x200D)) = true := by
          intro c hc
          cases hcc : c == 0x200D with
          | false => rfl
          | true =>
              have : c = 0x200D := by simpa using hcc
              rw [this] at hc
              exact absurd hc h1
        have h2 : ∀ c ∈ Unllm.clean s oIdx, (!(c == 0x200D)) = true := by
          unfold Unllm.clean
          rw [sanitize_stages]
          refine postStages_all (normStages_all hP ?_) (by decide)
          intro c hrep
          rcases hrep with h | h | h | h | h <;> (rw [h]; decide)
        refine List.filter_eq_nil_iff.mpr (fun a ha hba => ?_)
        have := h2 a ha
        rw [hba] at this
        cases this

/-- C5 witness: with invisible removal on, a concrete string with an emoji
keeps its zero-width joiner and a concrete string without one loses it,
in both implementations. -/
theorem c5_zwj_whole_string_witness :
    ((UnllmV0.resolveOptions noOptsV0).invisible = true ∧
      (UnllmV0.clean [0x1F600, 0x200D] noOptsV0).filter
          (fun c => c == 0x200D) =
        (if UnllmV0.containsEmoji [0x1F600, 0x200D] then
          ([0x1F600, 0x200D] : List Nat).filter (fun c => c == 0x200D)
        else []) ∧
      (Unllm.clean [0x1F600, 0x200D] noOpts).filter (fun c => c == 0x200D) =
        (if Unllm.containsEmoji [0x1F600, 0x200D] then
          ([0x1F600, 0x200D] : List Nat).filter (fun c => c == 0x200D)
        else [])) ∧
    ((UnllmV0.clean [0x61, 0x200D] noOptsV0).filter (fun c => c == 0x200D) =
        (if UnllmV0.containsEmoji [0x61, 0x200D] then
          ([0x61, 0x200D] : List Nat).filter (fun c => c == 0x200D)
        else []) ∧
      (Unllm.clean [0x61, 0x200D] noOpts).filter (fun c => c == 0x200D) =
        (if Unllm.containsEmoji [0x61, 0x200D] then
          ([0x61, 0x200D] : List Nat).filter (fun c => c == 0x200D)
        else [])) :=
  ⟨⟨by decide,
    (c5_zwj_whole_string [0x1F600, 0x200D] noOptsV0 noOpts (by decide)).1,
    (c5_zwj_whole_string [0x1F600, 0x200D] noOptsV0 noOpts (by decide)).2⟩,
   (c5_zwj_whole_string [0x61, 0x200D] noOptsV0 noOpts (by decide)).1,
   (c5_zwj_whole_string [0x61, 0x200D] noOptsV0 noOpts (by decide)).2⟩

/-! ## Idempotence -/

theorem v0_clean_emoji_stable (s : List Nat) (o : UnllmV0.CleanOptions) :
    UnllmV0.containsEmoji (UnllmV0.clean s o) = UnllmV0.containsEmoji s := by
  rw [v0_clean_eq]
  cases hem : UnllmV0.containsEmoji s with
  | true =>
      obtain ⟨e, he, hae⟩ := List.any_eq_true.mp hem
      refine List.any_eq_true.mpr ⟨e, mem_applySubsts he
        (fun p hp heq => ?_), hae⟩
      rcases mem_v0Substs hp with hm | hm | hm | hm | hm
      · have hf := (by decide : ∀ q ∈ v0InvisSubsts,
          UnllmV0.isActualEmojiChar q.1 = false) p hm
        rw [heq, hf] at hae
        exact Bool.noConfusion hae
      · rw [hm] at heq
        rw [heq] at hae
        exact absurd hae (by decide)
      · have hf := (by decide : ∀ q ∈ v0SpaceSubsts,
          UnllmV0.isActualEmojiChar q.1 = false) p hm
        rw [heq, hf] at hae
        exact Bool.noConfusion hae
      · have hf := (by decide : ∀ q ∈ UnllmV0.DASH_MAP,
          UnllmV0.isActualEmojiChar q.1 = false) p hm
        rw [heq, hf] at hae
        exact Bool.noConfusion hae
      · rw [hm] at heq
        rw [heq] at hae
        exact absurd hae (by decide)
  | false =>
      cases hout : UnllmV0.containsEmoji
          (applySubsts s
            (v0Substs (UnllmV0.resolveOptions o) false)) with
      | false => rfl
      | true =>
          exfalso
          obtain ⟨e, he, hae⟩ := List.any_eq_true.mp hout
          rcases mem_of_mem_applySubsts he with h | ⟨p, hp, hcp⟩
          · have : UnllmV0.containsEmoji s = true :=
              List.any_eq_true.mpr ⟨e, h, hae⟩
            rw [hem] at this
            exact Bool.noConfusion this
          · rcases v0Substs_rep hp _ hcp with h | h | h <;>
              (rw [h] at hae; exact absurd hae (by decide))

theorem v0_clean_idem (s : List Nat) (o : UnllmV0.CleanOptions) :
    UnllmV0.clean (UnllmV0.clean s o) o = UnllmV0.clean s o := by
  have hstable := v0_clean_emoji_stable s o
  rw [v0_clean_eq (UnllmV0.clean s o) o, hstable, v0_clean_eq s o]
  refine applySubsts_eq_self (fun p hp => ?_)
  refine not_mem_applySubsts_of_key (fun q hq hc => ?_)
    (List.mem_map.mpr ⟨p, hp, rfl⟩)
  have hrec := v0Substs_key_recognized hp
  rcases v0Substs_rep hq _ hc with h | h | h <;>
    (rw [h] at hrec; exact absurd hrec (by decide))

theorem idx_sanitize_idem (s : List Nat) (o : Unllm.CleanOptions) :
    Unllm.sanitize (Unllm.sanitize s o) o = Unllm.sanitize s o := by
  have hK : ∀ c ∈ Unllm.sanitize s o,
      Unllm.filterPred (Unllm.resolveOptions o).preserveLineBreaks
        (Unllm.resolveOptions o).preserveTabs c = true := by
    rw [sanitize_stages]
    exact fun c hc => mem_postStages_filterPred hc
  have hemst : Unllm.containsEmoji s = true →
      Unllm.containsEmoji (Unllm.sanitize s o) = true := by
    intro hs
    obtain ⟨e, he, hae⟩ := List.any_eq_true.mp hs
    have hee : Unllm.isEmoji e = true := by
      simp [Unllm.isEmoji, hae]
    have h1 : e ∈ Unllm.removeInvisibleCharsExceptEmoji s := by
      rw [removeICEE_eq_of_emoji hs]
      refine mem_applySubsts he (fun p hp heq => ?_)
      have hf := (by decide : ∀ q ∈ idxInvisNoZwjSubsts,
        Unllm.isActualEmoji q.1 = false) p hp
      rw [heq, hf] at hae
      exact Bool.noConfusion hae
    have h2 : e ∈ Unllm.sanitize s o := by
      rw [sanitize_stages]
      exact postStages_mem_emoji (normStages_mem_emoji h1 hee) hee
    exact List.any_eq_true.mpr ⟨e, h2, hae⟩
  have hstage1 : Unllm.removeInvisibleCharsExceptEmoji (Unllm.sanitize s o) =
      Unllm.sanitize s o := by
    cases hE : Unllm.containsEmoji (Unllm.sanitize s o) with
    | true =>
        rw [removeICEE_eq_of_emoji hE]
        refine applySubsts_eq_self (fun p hp hmem => ?_)
        have h1 := hK _ hmem
        rw [(by decide : ∀ q ∈ idxInvisNoZwjSubsts, ∀ b1 b2,
          Unllm.filterPred b1 b2 q.1 = false) p hp _ _] at h1
        exact Bool.noConfusion h1
    | false =>
        have hs : Unllm.containsEmoji s = false := by
          cases hs2 : Unllm.containsEmoji s with
          | false => rfl
          | true => rw [hemst hs2] at hE; exact Bool.noConfusion hE
        have hZbase : (0x200D : Nat) ∉
            Unllm.removeInvisibleCharsExceptEmoji s := by
          rw [removeICEE_eq_of_no_emoji hs]
          exact not_mem_applySubsts_of_key (by decide) (by decide)
        have hVSbase : ∀ c ∈ Unllm.removeInvisibleCharsExceptEmoji s,
            (!(Unllm.isVariationSelector c)) = true := by
          intro c hc
          rw [removeICEE_eq_of_no_emoji hs] at hc
          rcases mem_of_mem_applySubsts hc with h | ⟨p, hp, hcp⟩
          · exact (List.mem_filter.mp h).2
          · have hnil := (by decide : ∀ q ∈ idxInvisSubsts,
              q.2 = ([] : List Nat)) p hp
            rw [hnil] at hcp
            cases hcp
        have hProp : ∀ c ∈ Unllm.sanitize s o,
            (!(Unllm.isVariationSelector c) && !(c == 0x200D)) = true := by
          rw [sanitize_stages]
          refine postStages_all (normStages_all ?_ ?_) (by decide)
          · intro c hc
            have h1 := hVSbase c hc
            have h2 : (!(c == 0x200D)) = true := by
              cases hcc : c == 0x200D with
              | false => rfl
              | true =>
                  have hcc2 : c = 0x200D := by simpa using hcc
                  rw [hcc2] at hc
                  exact absurd hc hZbase
            simp only [Bool.and_eq_true]
            exact ⟨h1, h2⟩
          · intro c hrep
            rcases hrep with h | h | h | h | h <;> (rw [h]; decide)
        rw [removeICEE_eq_of_no_emoji hE]
        have hfilter : (Unllm.sanitize s o).filter
            (fun c => !(Unllm.isVariationSelector c)) = Unllm.sanitize s o :=
          List.filter_eq_self.mpr (fun c hc => by
            have h3 := hProp c hc
            simp only [Bool.and_eq_true] at h3
            exact h3.1)
        rw [hfilter]
        refine applySubsts_eq_self (fun p hp hmem => ?_)
        rcases (by decide : ∀ q ∈ idxInvisSubsts, q.1 = 0x200D ∨
            ∀ b1 b2, Unllm.filterPred b1 b2 q.1 = false) p hp with h | h
        · rw [h] at hmem
          have h4 := hProp _ hmem
          simp at h4
        · have h1 := hK _ hmem
          rw [h _ _] at h1
          exact Bool.noConfusion h1
  rw [sanitize_stages (Unllm.sanitize s o) o, hstage1, normStages_id hK]
  have hfc : Unllm.filterChars (Unllm.sanitize s o)
      (Unllm.resolveOptions o).preserveLineBreaks
      (Unllm.resolveOptions o).preserveTabs = Unllm.sanitize s o :=
    List.filter_eq_self.mpr hK
  unfold postStages
  rw [hfc]
  have hcol : applyIf (Unllm.resolveOptions o).collapseWhitespace
      (fun u => Unllm.collapseWhitespace u
        (Unllm.resolveOptions o).preserveLineBreaks
        (Unllm.resolveOptions o).preserveTabs)
      (Unllm.sanitize s o) = Unllm.sanitize s o := by
    cases hcw : (Unllm.resolveOptions o).collapseWhitespace with
    | false => exact applyIf_false rfl
    | true =>
        rw [applyIf_true rfl, collapseWhitespace_eq]
        refine collapseRuns_eq_self_of_collNF
          ((by decide : ∀ b1 b2, Unllm.wsClass b1 b2 32 = true) _ _) ?_
        rw [sanitize_stages]
        exact postStages_collNF hcw
  rw [hcol]
  cases htr : (Unllm.resolveOptions o).trim with
  | false => exact applyIf_false rfl
  | true =>
      rw [applyIf_true rfl, sanitize_stages s o]
      exact postStages_trim_id htr

/-- C3: clean is idempotent under a fixed configuration, in both
generations of the engine: for every string and every fixed options
record, cleaning the cleaned output returns it unchanged. -/
theorem c3_clean_idempotent :
    (∀ (s : List Nat) (o : UnllmV0.CleanOptions),
      UnllmV0.clean (UnllmV0.clean s o) o = UnllmV0.clean s o) ∧
    (∀ (s : List Nat) (o : Unllm.CleanOptions),
      Unllm.clean (Unllm.clean s o) o = Unllm.clean s o) :=
  ⟨v0_clean_idem, fun s o =>
    idx_sanitize_idem s (Unllm.mergeCleanOptions Unllm.presetStandard o)⟩

/-- Options disabling quote normalization, for the gating counterexample. -/
def quotesOff : Unllm.CleanOptions :=
  ⟨none, none, none, some false, none, none, none, none⟩

/-- C2 counterexample: in src/index.ts, disabling the quote category does
not leave quote variants unchanged — clean drops the left single
quotation mark entirely (the keyboard filter removes it instead of the
disabled normalization rewriting it). -/
theorem c2_counterexample :
    quotesOff.normalizeQuotes = some false ∧
      Unllm.clean [0x2018] quotesOff = [] := by
  constructor
  · rfl
  · decide
